import Mathlib

/-!
Verification development for the wechat-bot batch delivery engine
(`wechat_bot/batch_sender.py` and the collaborator methods of
`wechat_bot/wechat.py`).

The Python code is shallowly embedded:

* YAML / Python values are modelled by `PyVal` (dictionary keys are
  strings, which covers every configuration document shape the code is
  specified on).
* Functions that can raise are modelled in `Except PyErr`; the Python
  attribute/type/key errors that `validate_config` can actually raise
  are distinguished by `PyErr`.
* UI automation (clipboard, window focus, keystrokes) is abstracted by
  a stateful oracle `UIOracle σ`: each primitive consumes and produces
  an oracle state, so distinct calls may yield distinct outcomes, and
  the primitives that Python may raise from return `UIRes.exn`.
* Python dictionaries keyed by recipient / message names are modelled
  by association lists together with `dictSet` (in-place overwrite,
  insertion order preserved), matching Python `dict.__setitem__` /
  `dict.update` semantics.
-/

/-- A Python/YAML value. Dictionary keys are strings (the shape of all
parsed configuration documents considered by the code). -/
inductive PyVal where
  | none : PyVal
  | bool : Bool → PyVal
  | int : Int → PyVal
  | str : String → PyVal
  | list : List PyVal → PyVal
  | dict : List (String × PyVal) → PyVal

/-- The Python exceptions `validate_config` can raise. -/
inductive PyErr where
  | typeError : PyErr
  | keyError : PyErr
  | attributeError : PyErr
deriving DecidableEq

/-- First-occurrence lookup in an association list (Python `dict`
lookup; parsed YAML dictionaries never contain duplicate keys). -/
def lookupKV (kvs : List (String × PyVal)) (k : String) : Option PyVal :=
  match kvs with
  | [] => Option.none
  | (k', v) :: rest => if k' == k then Option.some v else lookupKV rest k

/-- `needle` occurs as a contiguous sublist of `hay` (Python substring
containment, used by `key in some_string`). -/
def isSubArr (needle hay : List Char) : Bool :=
  match hay with
  | [] => needle.isEmpty
  | _ :: t => needle.isPrefixOf hay || isSubArr needle t

def strContains (hay needle : String) : Bool :=
  isSubArr needle.data hay.data

/-- Python `key in v`.  Dicts test key membership, lists test element
membership, strings test substring containment; `in` on `None`, ints
and booleans raises `TypeError`. -/
def pyIn (key : String) (v : PyVal) : Except PyErr Bool :=
  match v with
  | .dict kvs => .ok (kvs.any (fun kv => kv.1 == key))
  | .list xs => .ok (xs.any (fun x => match x with | .str s => s == key | _ => false))
  | .str s => .ok (strContains s key)
  | _ => .error .typeError

/-- Python `v[key]` with a string key: dict lookup (`KeyError` when
missing); on lists and strings a string subscript raises `TypeError`,
as does subscripting `None`, ints and booleans. -/
def pySub (v : PyVal) (key : String) : Except PyErr PyVal :=
  match v with
  | .dict kvs =>
    match lookupKV kvs key with
    | Option.some x => .ok x
    | Option.none => .error .keyError
  | _ => .error .typeError

/-- Python `v.items()`: only dicts have it, anything else raises
`AttributeError`. -/
def pyItems (v : PyVal) : Except PyErr (List (String × PyVal)) :=
  match v with
  | .dict kvs => .ok kvs
  | _ => .error .attributeError

/-- Python `isinstance(v, list)`. -/
def pyIsList (v : PyVal) : Bool :=
  match v with
  | .list _ => true
  | _ => false

/-- Python `v == s` for a string literal `s`: true exactly for the
equal string (no cross-type equality with strings). -/
def pyEqStr (v : PyVal) (s : String) : Bool :=
  match v with
  | .str t => t == s
  | _ => false

/-- Python truthiness. -/
def pyTruthy (v : PyVal) : Bool :=
  match v with
  | .none => false
  | .bool b => b
  | .int n => n != 0
  | .str s => !s.isEmpty
  | .list l => !l.isEmpty
  | .dict l => !l.isEmpty

/-- The string elements of a Python list value.  Exact for the lists of
strings that the spec's data model assigns to `tags`, `recipients` and
`blacklist_tags`; theorems about `batch_send` are stated for such
configurations. -/
def pyStrList (v : PyVal) : List String :=
  match v with
  | .list l => l.filterMap (fun x => match x with | .str s => Option.some s | _ => Option.none)
  | _ => []

/-- The elements of a Python list value (exact for list values, which
`validate_config` guarantees for every `content` entry it accepts). -/
def pyValList (v : PyVal) : List PyVal :=
  match v with
  | .list l => l
  | _ => []

/-- The items of a Python dict value (exact for dict values, which
`validate_config` guarantees for `groups` and `messages`). -/
def pyDictItems (v : PyVal) : List (String × PyVal) :=
  match v with
  | .dict kvs => kvs
  | _ => []

namespace BatchMessageSender

/-- The `image` branch of `BatchMessageSender.validate_message`
(batch_sender.py lines 30-36). -/
def vmImage (message : PyVal) : Except PyErr Bool :=
  match pyIn "source" message with
  | .error e => .error e
  | .ok hasS =>
    if !hasS then .ok false
    else
      match pySub message "source" with
      | .error e => .error e
      | .ok src =>
        if !(pyEqStr src "file") then .ok false
        else
          match pyIn "path" message with
          | .error e => .error e
          | .ok hasP => if !hasP then .ok false else .ok true

/-- `BatchMessageSender.validate_message` (batch_sender.py lines
19-38), with the `TypeError` it raises on non-container items made
explicit. -/
def validate_message (message : PyVal) : Except PyErr Bool :=
  match pyIn "type" message with
  | .error e => .error e
  | .ok hasTy =>
    if !hasTy then .ok false
    else
      match pySub message "type" with
      | .error e => .error e
      | .ok ty =>
        if !(pyEqStr ty "text" || pyEqStr ty "image") then .ok false
        else if pyEqStr ty "text" then
          match pyIn "content" message with
          | .error e => .error e
          | .ok hasC => if !hasC then .ok false else .ok true
        else
          vmImage message

/-- The group loop of `validate_config` (batch_sender.py lines 46-52). -/
def validateGroups : List (String × PyVal) → Except PyErr Bool
  | [] => .ok true
  | (_, gc) :: rest =>
    match pyIn "tags" gc with
    | .error e => .error e
    | .ok h1 =>
      if !h1 then .ok false
      else
        match pyIn "recipients" gc with
        | .error e => .error e
        | .ok h2 =>
          if !h2 then .ok false
          else
            match pySub gc "tags" with
            | .error e => .error e
            | .ok tv =>
              if !(pyIsList tv) then .ok false
              else
                match pySub gc "recipients" with
                | .error e => .error e
                | .ok rv =>
                  if !(pyIsList rv) then .ok false else validateGroups rest

/-- The content loop of `validate_config` (batch_sender.py lines 65-67). -/
def validateContents : List PyVal → Except PyErr Bool
  | [] => .ok true
  | m :: rest =>
    match validate_message m with
    | .error e => .error e
    | .ok b => if !b then .ok false else validateContents rest

/-- The message loop of `validate_config` (batch_sender.py lines 55-67). -/
def validateMessages : List (String × PyVal) → Except PyErr Bool
  | [] => .ok true
  | (_, mc) :: rest =>
    match pyIn "tags" mc with
    | .error e => .error e
    | .ok h1 =>
      if !h1 then .ok false
      else
        match pyIn "content" mc with
        | .error e => .error e
        | .ok h2 =>
          if !h2 then .ok false
          else
            match pySub mc "tags" with
            | .error e => .error e
            | .ok tv =>
              if !(pyIsList tv) then .ok false
              else
                match pySub mc "content" with
                | .error e => .error e
                | .ok cv =>
                  if !(pyIsList cv) then .ok false
                  else
                    match pyIn "blacklist_tags" mc with
                    | .error e => .error e
                    | .ok hb =>
                      let blCheck : Except PyErr Bool :=
                        if hb then
                          match pySub mc "blacklist_tags" with
                          | .error e => .error e
                          | .ok bv => .ok (pyIsList bv)
                        else .ok true
                      match blCheck with
                      | .error e => .error e
                      | .ok blOk =>
                        if !blOk then .ok false
                        else
                          match validateContents (pyValList cv) with
                          | .error e => .error e
                          | .ok cOk =>
                            if !cOk then .ok false else validateMessages rest

/-- `BatchMessageSender.validate_config` (batch_sender.py lines 40-69),
with the exceptions it raises on ill-shaped documents made explicit. -/
def validate_config (config : PyVal) : Except PyErr Bool :=
  match pyIn "groups" config with
  | .error e => .error e
  | .ok hg =>
    if !hg then .ok false
    else
      match pyIn "messages" config with
      | .error e => .error e
      | .ok hm =>
        if !hm then .ok false
        else
          match pySub config "groups" with
          | .error e => .error e
          | .ok gv =>
            match pyItems gv with
            | .error e => .error e
            | .ok gItems =>
              match validateGroups gItems with
              | .error e => .error e
              | .ok gOk =>
                if !gOk then .ok false
                else
                  match pySub config "messages" with
                  | .error e => .error e
                  | .ok mv =>
                    match pyItems mv with
                    | .error e => .error e
                    | .ok mItems =>
                      match validateMessages mItems with
                      | .error e => .error e
                      | .ok mOk => if !mOk then .ok false else .ok true

/-- `BatchMessageSender.tags_match` (batch_sender.py lines 71-92) on
string tags (the type the spec's data model assigns to tags).
`Option.none` models the Python default `message_blacklist_tags=None`;
the `if message_blacklist_tags:` truthiness test treats `None` and the
empty list alike. -/
def tags_match (message_tags group_tags : List String)
    (message_blacklist_tags : Option (List String)) : Bool :=
  let blTruthy :=
    match message_blacklist_tags with
    | Option.none => false
    | Option.some l => !l.isEmpty
  if blTruthy && group_tags.any (fun t => (message_blacklist_tags.getD []).contains t) then
    false
  else
    message_tags.any (fun t => group_tags.contains t)

end BatchMessageSender

/-! ## Python dictionaries keyed by names

`results[k] = v` and `results.update(other)` preserve insertion order
and overwrite values in place, which the association-list operations
below reproduce. -/

/-- A Python dict with string keys. -/
abbrev PyDict (α : Type) := List (String × α)

/-- Python `d[k] = v`. -/
def dictSet {α : Type} (d : PyDict α) (k : String) (v : α) : PyDict α :=
  match d with
  | [] => [(k, v)]
  | (k', v') :: rest => if k' == k then (k, v) :: rest else (k', v') :: dictSet rest k v

/-- Python `d.get(k)` / `k in d`. -/
def dictGet? {α : Type} (d : PyDict α) (k : String) : Option α :=
  match d with
  | [] => Option.none
  | (k', v') :: rest => if k' == k then Option.some v' else dictGet? rest k

/-- Python `d.update(u)`: set every key of `u` in order. -/
def dictUpdate {α : Type} (d u : PyDict α) : PyDict α :=
  u.foldl (fun acc kv => dictSet acc kv.1 kv.2) d

/-- Python `{recipient: False for recipient in recipients}`. -/
def allFalse (recipients : List String) : PyDict Bool :=
  recipients.foldl (fun d r => dictSet d r false) []

/-! ## The UI-automation oracle

`WeChatMac`'s clipboard / window / keystroke primitives are external
effects.  They are modelled by an oracle over an abstract state `σ`:
each primitive consumes the state and returns a successor state, so
successive calls may give different outcomes.  `UIRes.exn` marks a
primitive call that raises. -/

/-- Outcome of a UI primitive that Python may raise from. -/
inductive UIRes where
  | val : Bool → UIRes
  | exn : UIRes

/-- The UI primitives used by the `WeChatMac` collaborator methods.

* `prepare` — `_prepare_message` (wechat.py 276-305): copies the text
  to the clipboard; may raise (e.g. `len()` on a non-sized value,
  clipboard errors) and may return `False`.
* `findChat` — `find_chat` (wechat.py 250-274): may raise
  (`WeChatError` on an empty name) and may return `False`.
* `pasteSend` — `_paste_and_send` (wechat.py 307-329): catches its own
  exceptions and returns a boolean.
* `getClip` — `_get_clipboard_content` (wechat.py 384-429): catches
  its own exceptions; only its effect on the state matters here.
* `setClip` — `_set_clipboard_content` (wechat.py 431-…): may raise.
* `sendClipContent` — `send_clipboard_content` (wechat.py 543-569):
  catches its own exceptions and returns a boolean. -/
structure UIOracle (σ : Type) where
  prepare : σ → PyVal → σ × UIRes
  findChat : σ → String → σ × UIRes
  pasteSend : σ → σ × Bool
  getClip : σ → σ
  setClip : σ → σ × UIRes
  sendClipContent : σ → σ × Bool

namespace WeChatMac

variable {σ : Type}

/-- The per-recipient body of `send_messages_to_recipients`
(wechat.py 364-377): `try: if find_chat(r): paste_and_send() else
False except: False`. -/
def textOne (o : UIOracle σ) (s : σ) (r : String) : σ × Bool :=
  match o.findChat s r with
  | (s1, .exn) => (s1, false)
  | (s1, .val false) => (s1, false)
  | (s1, .val true) => o.pasteSend s1

/-- The recipient loop of `send_messages_to_recipients`, accumulating
`results[recipient] = success`. -/
def textLoop (o : UIOracle σ) (s : σ) (rs : List String) (acc : PyDict Bool) :
    σ × PyDict Bool :=
  match rs with
  | [] => (s, acc)
  | r :: rest =>
    let (s1, b) := textOne o s r
    textLoop o s1 rest (dictSet acc r b)

/-- `WeChatMac.send_messages_to_recipients` (wechat.py 344-382).
A falsy message or empty recipient list returns `{}` at once; a raise
in `_prepare_message` (called before the loop, outside any handler)
propagates; a `False` from `_prepare_message` records `False` for all
recipients. -/
def send_messages_to_recipients (o : UIOracle σ) (s : σ) (message : PyVal)
    (recipients : List String) : σ × Except Unit (PyDict Bool) :=
  if !pyTruthy message || recipients.isEmpty then (s, .ok [])
  else
    match o.prepare s message with
    | (s1, .exn) => (s1, .error ())
    | (s1, .val false) => (s1, .ok (allFalse recipients))
    | (s1, .val true) =>
      let (s2, d) := textLoop o s1 recipients []
      (s2, .ok d)

/-- The per-recipient body of `send_clipboard_to_recipients`
(wechat.py 592-615): inside `try`, set a temporary search text on the
clipboard, `find_chat`, restore the original clipboard, then
`send_clipboard_content`; any raise records `False`. -/
def clipOne (o : UIOracle σ) (s : σ) (r : String) : σ × Bool :=
  match o.setClip s with
  | (s1, .exn) => (s1, false)
  | (s1, .val _) =>
    match o.findChat s1 r with
    | (s2, .exn) => (s2, false)
    | (s2, .val false) => (s2, false)
    | (s2, .val true) =>
      match o.setClip s2 with
      | (s3, .exn) => (s3, false)
      | (s3, .val _) => o.sendClipContent s3

/-- The recipient loop of `send_clipboard_to_recipients`. -/
def clipLoop (o : UIOracle σ) (s : σ) (rs : List String) (acc : PyDict Bool) :
    σ × PyDict Bool :=
  match rs with
  | [] => (s, acc)
  | r :: rest =>
    let (s1, b) := clipOne o s r
    clipLoop o s1 rest (dictSet acc r b)

/-- `WeChatMac.send_clipboard_to_recipients` (wechat.py 571-620).
An empty recipient list returns `{}`; otherwise the original clipboard
content is read once (total: `_get_clipboard_content` catches its own
exceptions) and every recipient is processed in the loop. -/
def send_clipboard_to_recipients (o : UIOracle σ) (s : σ)
    (recipients : List String) : σ × PyDict Bool :=
  if recipients.isEmpty then (s, [])
  else clipLoop o (o.getClip s) recipients []

end WeChatMac

/-! ## The batch dispatcher (`BatchMessageSender`, continued) -/

/-- A call from the dispatcher to the messaging collaborator: one
delivery attempt.  The image/`file` branch of `send_message` never
produces one, because `WeChatMac` has no `send_image_to_recipients`
method: the attribute access itself raises `AttributeError` before any
UI interaction. -/
inductive Call where
  | text : PyVal → List String → Call
  | clip : List String → Call

namespace BatchMessageSender

variable {σ : Type}

/-- `group_config['tags']` as read by `batch_send` (string tags, per
the spec's data model). -/
def groupTags (gc : PyVal) : List String :=
  pyStrList ((pySub gc "tags").toOption.getD .none)

/-- `group_config['recipients']` as read by `batch_send`. -/
def groupRecipients (gc : PyVal) : List String :=
  pyStrList ((pySub gc "recipients").toOption.getD .none)

/-- `message_config['tags']` as read by `batch_send`. -/
def msgTags (mc : PyVal) : List String :=
  pyStrList ((pySub mc "tags").toOption.getD .none)

/-- `message_config.get('blacklist_tags', [])` (batch_sender.py 147). -/
def msgBlacklist (mc : PyVal) : List String :=
  pyStrList ((pySub mc "blacklist_tags").toOption.getD (.list []))

/-- `message_config['content']` as read by `batch_send`. -/
def msgContent (mc : PyVal) : List PyVal :=
  pyValList ((pySub mc "content").toOption.getD .none)

/-- `config['groups'].items()` as enumerated by `batch_send`. -/
def cfgGroups (config : PyVal) : List (String × PyVal) :=
  pyDictItems ((pySub config "groups").toOption.getD .none)

/-- `config['messages'].items()` as enumerated by `batch_send`. -/
def cfgMessages (config : PyVal) : List (String × PyVal) :=
  pyDictItems ((pySub config "messages").toOption.getD .none)

/-- A content item whose send can reach every recipient: text items
need a truthy body (`send_messages_to_recipients` returns `{}` for a
falsy one); non-text items always record an entry per recipient. -/
def itemSendable (it : PyVal) : Bool :=
  match pySub it "type" with
  | .ok (.str "text") => pyTruthy ((pySub it "content").toOption.getD .none)
  | _ => true

/-- `BatchMessageSender.send_message` (batch_sender.py 94-121).

* A failed defensive `validate_message` re-check records `False` for
  every recipient without any collaborator call; a raise from
  `validate_message` itself (line 96, outside the handler) propagates.
* `text` delegates to `send_messages_to_recipients`; a raise from it
  is caught by the `except` and records `False` for every recipient.
* `image` with `source == 'clipboard'` delegates to
  `send_clipboard_to_recipients` (dead after validation, which only
  accepts `source == 'file'`).
* `image` with `source == 'file'` reaches
  `self.wechat.send_image_to_recipients`, a method `WeChatMac` does
  not define: the `AttributeError` is caught by the `except` and every
  recipient is recorded `False`.
* Any other type falls off the end of the function: Python returns
  `None` (unreachable once the re-check passed, since it only accepts
  `text` and `image`). -/
def send_message (o : UIOracle σ) (s : σ) (message : PyVal)
    (recipients : List String) : σ × List Call × Except Unit (Option (PyDict Bool)) :=
  match validate_message message with
  | .error _ => (s, [], .error ())
  | .ok false => (s, [], .ok (Option.some (allFalse recipients)))
  | .ok true =>
    match pySub message "type" with
    | .ok (.str "text") =>
      let content := (pySub message "content").toOption.getD .none
      let (s1, res) := WeChatMac.send_messages_to_recipients o s content recipients
      match res with
      | .error _ => (s1, [Call.text content recipients], .ok (Option.some (allFalse recipients)))
      | .ok d => (s1, [Call.text content recipients], .ok (Option.some d))
    | .ok (.str "image") =>
      match pySub message "source" with
      | .ok (.str "clipboard") =>
        let (s1, d) := WeChatMac.send_clipboard_to_recipients o s recipients
        (s1, [Call.clip recipients], .ok (Option.some d))
      | _ => (s, [], .ok (Option.some (allFalse recipients)))
    | _ => (s, [], .ok Option.none)

/-- The content-item loop of `batch_send` (batch_sender.py 152-154):
each item's result dict is merged into the per-message results with
`message_results.update(result)`.  A `None` result (only possible for
an item that defeats the type re-check, impossible after validation)
would make `update` raise `TypeError`, modelled as an error. -/
def contentLoop (o : UIOracle σ) (s : σ) (items : List PyVal)
    (recipients : List String) (acc : PyDict Bool) :
    σ × List Call × Except Unit (PyDict Bool) :=
  match items with
  | [] => (s, [], .ok acc)
  | it :: rest =>
    match send_message o s it recipients with
    | (s1, c1, .error _) => (s1, c1, .error ())
    | (s1, c1, .ok Option.none) => (s1, c1, .error ())
    | (s1, c1, .ok (Option.some d)) =>
      let (s2, c2, out) := contentLoop o s1 rest recipients (dictUpdate acc d)
      (s2, c1 ++ c2, out)

/-- The group loop of `batch_send` (batch_sender.py 149-154): each
group whose tags match sends every content item to its recipients. -/
def groupLoop (o : UIOracle σ) (s : σ) (mtags mbl : List String)
    (items : List PyVal) (groups : List (String × PyVal)) (acc : PyDict Bool) :
    σ × List Call × Except Unit (PyDict Bool) :=
  match groups with
  | [] => (s, [], .ok acc)
  | (_, gc) :: rest =>
    let gtags := groupTags gc
    let recipients := groupRecipients gc
    if tags_match mtags gtags (Option.some mbl) then
      match contentLoop o s items recipients acc with
      | (s1, c1, .error _) => (s1, c1, .error ())
      | (s1, c1, .ok acc1) =>
        let (s2, c2, out) := groupLoop o s1 mtags mbl items rest acc1
        (s2, c1 ++ c2, out)
    else groupLoop o s mtags mbl items rest acc

/-- The message loop of `batch_send` (batch_sender.py 143-156):
`results[message_name] = message_results` after the group loop. -/
def msgLoop (o : UIOracle σ) (s : σ) (groups : List (String × PyVal))
    (msgs : List (String × PyVal)) (acc : PyDict (PyDict Bool)) :
    σ × List Call × Except Unit (PyDict (PyDict Bool)) :=
  match msgs with
  | [] => (s, [], .ok acc)
  | (mn, mc) :: rest =>
    let mtags := msgTags mc
    let mbl := msgBlacklist mc
    let items := msgContent mc
    match groupLoop o s mtags mbl items groups [] with
    | (s1, c1, .error _) => (s1, c1, .error ())
    | (s1, c1, .ok mres) =>
      let (s2, c2, out) := msgLoop o s1 groups rest (dictSet acc mn mres)
      (s2, c1 ++ c2, out)

/-- The outcome of loading the configuration file in `batch_send`
(batch_sender.py 125-134): the file may be missing, `yaml.safe_load`
may raise (caught: empty result), or a document is produced. -/
inductive LoadResult where
  | missing : LoadResult
  | parseError : LoadResult
  | parsed : PyVal → LoadResult

/-- `BatchMessageSender.batch_send` (batch_sender.py 123-158).  The
second component is the trace of collaborator calls (delivery
attempts); the third is the returned result, with a raise out of
`batch_send` (possible only from `validate_config` or from an
un-revalidatable content item, never after successful validation)
modelled as `.error`. -/
def batch_send (o : UIOracle σ) (s : σ) (load : LoadResult) :
    σ × List Call × Except Unit (PyDict (PyDict Bool)) :=
  match load with
  | .missing => (s, [], .ok [])
  | .parseError => (s, [], .ok [])
  | .parsed config =>
    match validate_config config with
    | .error _ => (s, [], .error ())
    | .ok false => (s, [], .ok [])
    | .ok true => msgLoop o s (cfgGroups config) (cfgMessages config) []

/-! ### Write-sequence view of the dispatcher loops

The per-message result dict is built by a sequence of `dictSet` writes
(one per entry of each item's result).  The companions below return
that flat write sequence; `contentLoop_eq_writes` /
`groupLoop_eq_writes` relate them to the loops. -/

/-- The flat sequence of per-recipient writes the content-item loop
performs, with the same oracle-state evolution and call trace. -/
def contentWrites (o : UIOracle σ) (s : σ) (items : List PyVal)
    (recipients : List String) :
    σ × List Call × Except Unit (List (String × Bool)) :=
  match items with
  | [] => (s, [], .ok [])
  | it :: rest =>
    match send_message o s it recipients with
    | (s1, c1, .error _) => (s1, c1, .error ())
    | (s1, c1, .ok Option.none) => (s1, c1, .error ())
    | (s1, c1, .ok (Option.some d)) =>
      match contentWrites o s1 rest recipients with
      | (s2, c2, .error e) => (s2, c1 ++ c2, .error e)
      | (s2, c2, .ok ws) => (s2, c1 ++ c2, .ok (d ++ ws))

/-- The flat sequence of per-recipient writes the group loop performs. -/
def groupWrites (o : UIOracle σ) (s : σ) (mtags mbl : List String)
    (items : List PyVal) (groups : List (String × PyVal)) :
    σ × List Call × Except Unit (List (String × Bool)) :=
  match groups with
  | [] => (s, [], .ok [])
  | (_, gc) :: rest =>
    if tags_match mtags (groupTags gc) (Option.some mbl) then
      match contentWrites o s items (groupRecipients gc) with
      | (s1, c1, .error _) => (s1, c1, .error ())
      | (s1, c1, .ok ws) =>
        match groupWrites o s1 mtags mbl items rest with
        | (s2, c2, .error e) => (s2, c1 ++ c2, .error e)
        | (s2, c2, .ok ws2) => (s2, c1 ++ c2, .ok (ws ++ ws2))
    else groupWrites o s mtags mbl items rest

end BatchMessageSender

/-- The value left in a dict by a sequence of writes: the last write
for the key, if any. -/
def lastWrite {α : Type} (ws : List (String × α)) (k : String) : Option α :=
  match ws with
  | [] => Option.none
  | (k', v) :: rest =>
    match lastWrite rest k with
    | Option.some w => Option.some w
    | Option.none => if k' == k then Option.some v else Option.none

/-! ## Concrete fixtures used by witnesses and counterexamples -/

/-- An oracle whose primitives all succeed (stateless). -/
def oracleT : UIOracle Unit where
  prepare := fun s _ => (s, .val true)
  findChat := fun s _ => (s, .val true)
  pasteSend := fun s => (s, true)
  getClip := fun s => s
  setClip := fun s => (s, .val true)
  sendClipContent := fun s => (s, true)

/-- An oracle whose `_prepare_message` raises (e.g. a clipboard
failure). -/
def oracleRaise : UIOracle Unit where
  prepare := fun s _ => (s, .exn)
  findChat := fun s _ => (s, .val true)
  pasteSend := fun s => (s, true)
  getClip := fun s => s
  setClip := fun s => (s, .val true)
  sendClipContent := fun s => (s, true)

/-- A counting oracle: every primitive ticks the counter, and
`_paste_and_send` succeeds only from its second use on (counter ≥ 4),
so the two sends of one batch give different outcomes. -/
def oracleCtr : UIOracle Nat where
  prepare := fun s _ => (s + 1, .val true)
  findChat := fun s _ => (s + 1, .val true)
  pasteSend := fun s => (s + 1, decide (s ≥ 4))
  getClip := fun s => s
  setClip := fun s => (s + 1, .val true)
  sendClipContent := fun s => (s, true)

/-- Group `{tags: [a], recipients: [Alice]}`. -/
def gcAlice : PyVal :=
  .dict [("tags", .list [.str "a"]), ("recipients", .list [.str "Alice"])]

/-- Message `{tags: [a], content: [{type: text, content: ""}]}` — a
validated text item with a falsy body. -/
def mcEmptyText : PyVal :=
  .dict [("tags", .list [.str "a"]),
         ("content", .list [.dict [("type", .str "text"), ("content", .str "")]])]

def cfgEmptyText : PyVal :=
  .dict [("groups", .dict [("g", gcAlice)]), ("messages", .dict [("m", mcEmptyText)])]

/-- Message `{tags: [a], content: []}` — validated, nothing to send. -/
def mcNoContent : PyVal :=
  .dict [("tags", .list [.str "a"]), ("content", .list [])]

def cfgNoContent : PyVal :=
  .dict [("groups", .dict [("g", gcAlice)]), ("messages", .dict [("m", mcNoContent)])]

/-- Group `{tags: [eng], recipients: [Alice]}`. -/
def gcTeam : PyVal :=
  .dict [("tags", .list [.str "eng"]), ("recipients", .list [.str "Alice"])]

/-- Message `{tags: [eng], content: [{type: text, content: "hi"}]}`. -/
def mcA : PyVal :=
  .dict [("tags", .list [.str "eng"]),
         ("content", .list [.dict [("type", .str "text"), ("content", .str "hi")]])]

/-- Scenario A configuration: one group, one matching text message. -/
def cfgScenarioA : PyVal :=
  .dict [("groups", .dict [("team", gcTeam)]), ("messages", .dict [("announce", mcA)])]

/-- As `mcA`, but blacklisting `eng`. -/
def mcB : PyVal :=
  .dict [("tags", .list [.str "eng"]), ("blacklist_tags", .list [.str "eng"]),
         ("content", .list [.dict [("type", .str "text"), ("content", .str "hi")]])]

/-- Scenario B configuration: as A, but the message blacklists `eng`. -/
def cfgScenarioB : PyVal :=
  .dict [("groups", .dict [("team", gcTeam)]), ("messages", .dict [("announce", mcB)])]

/-- Scenario C groups: both contain recipient `X`. -/
def gcX1 : PyVal :=
  .dict [("tags", .list [.str "a"]), ("recipients", .list [.str "X"])]

def gcX2 : PyVal :=
  .dict [("tags", .list [.str "b"]), ("recipients", .list [.str "X"])]

/-- Scenario C message: tags `[a, b]`, one text item. -/
def mcAB : PyVal :=
  .dict [("tags", .list [.str "a", .str "b"]),
         ("content", .list [.dict [("type", .str "text"), ("content", .str "hi")]])]

def cfgTwoGroups : PyVal :=
  .dict [("groups", .dict [("g1", gcX1), ("g2", gcX2)]), ("messages", .dict [("m", mcAB)])]


/-- The text content item `{type: text, content: "hi"}`. -/
def itemHi : PyVal := .dict [("type", .str "text"), ("content", .str "hi")]

/-! ## Spec-side validation (for the refinement claim about `validate_config`)

The definitions below transcribe the spec's §4.1 validation checklist;
they are compared with the code's `validate_config` on well-shaped
documents. -/

/-- Whether a value is a mapping. -/
def PyVal.isDict (v : PyVal) : Bool :=
  match v with
  | .dict _ => true
  | _ => false

/-- Total lookup in a mapping value (none on non-mappings). -/
def mapGet (v : PyVal) (k : String) : Option PyVal :=
  match v with
  | .dict kvs => lookupKV kvs k
  | _ => Option.none

/-- Spec §4.1 check 4: a content item has a `type` of `text` (which
requires a `content` field) or `image` (which requires `source` equal
to `file`, which in turn requires `path`). -/
def specContentItemOk (item : PyVal) : Bool :=
  match mapGet item "type" with
  | Option.some ty =>
    if pyEqStr ty "text" then (mapGet item "content").isSome
    else if pyEqStr ty "image" then
      (match mapGet item "source" with
       | Option.some src => pyEqStr src "file" && (mapGet item "path").isSome
       | Option.none => false)
    else false
  | Option.none => false

/-- Spec §4.1 check 2: a group entry has `tags` and `recipients`, both
sequences. -/
def specGroupOk (gc : PyVal) : Bool :=
  (match mapGet gc "tags" with
   | Option.some t => pyIsList t
   | Option.none => false) &&
  (match mapGet gc "recipients" with
   | Option.some t => pyIsList t
   | Option.none => false)

/-- Spec §4.1 check 3 (plus check 4 over the items): a message entry
has `tags` and `content` sequences, an optional `blacklist_tags`
sequence, and well-shaped content items. -/
def specMessageOk (mc : PyVal) : Bool :=
  (match mapGet mc "tags" with
   | Option.some t => pyIsList t
   | Option.none => false) &&
  (match mapGet mc "content" with
   | Option.some cv => pyIsList cv && (pyValList cv).all specContentItemOk
   | Option.none => false) &&
  (match mapGet mc "blacklist_tags" with
   | Option.some bv => pyIsList bv
   | Option.none => true)

/-- Spec §4.1: the document has `groups` and `messages` mappings whose
entries all pass their checks. -/
def specConfigOk (config : PyVal) : Bool :=
  match mapGet config "groups", mapGet config "messages" with
  | Option.some g, Option.some m =>
    (match g with
     | .dict gs => gs.all (fun p => specGroupOk p.2)
     | _ => false) &&
    (match m with
     | .dict ms => ms.all (fun p => specMessageOk p.2)
     | _ => false)
  | _, _ => false

/-- The `content` entry of a message, when it is a list, holds only
mappings. -/
def contentShaped (mc : PyVal) : Bool :=
  match mapGet mc "content" with
  | Option.some (.list items) => items.all (fun it => it.isDict)
  | _ => true

/-- The shape of documents on which `validate_config` is exception-free:
a mapping whose `groups` / `messages` entries (when present) are
mappings with mapping values, with all content items mappings.  On
anything else `validate_config` can raise (see the counterexample). -/
def docShaped (config : PyVal) : Bool :=
  match config with
  | .dict kvs =>
    (match lookupKV kvs "groups" with
     | Option.none => true
     | Option.some (.dict gs) => gs.all (fun g => g.2.isDict)
     | Option.some _ => false) &&
    (match lookupKV kvs "messages" with
     | Option.none => true
     | Option.some (.dict ms) => ms.all (fun m => m.2.isDict && contentShaped m.2)
     | Option.some _ => false)
  | _ => false

/-! ## Lemmas about the Python-dict model -/

theorem beqF {a b : String} (h : a ≠ b) : (a == b) = false := by
  simp [beq_iff_eq]; exact h

theorem dictGet?_dictSet {α : Type} (d : PyDict α) (k : String) (v : α) (k' : String) :
    dictGet? (dictSet d k v) k' = if k' = k then Option.some v else dictGet? d k' := by
  induction d with
  | nil =>
    by_cases h : k' = k
    · subst h; simp [dictSet, dictGet?]
    · simp [dictSet, dictGet?, beqF (Ne.symm h), h]
  | cons a rest ih =>
    obtain ⟨ak, av⟩ := a
    by_cases hak : ak = k
    · subst hak
      simp only [dictSet, beq_self_eq_true, if_true, dictGet?]
      by_cases h : ak = k'
      · subst h; simp
      · simp [beqF h, Ne.symm h]
    · simp only [dictSet, beqF hak, Bool.false_eq_true, if_false, dictGet?]
      by_cases h2 : ak = k'
      · subst h2
        simp [hak]
      · simp [beqF h2, ih]

theorem dictGet?_isSome_iff_mem {α : Type} (d : PyDict α) (k : String) :
    (dictGet? d k).isSome = true ↔ k ∈ d.map Prod.fst := by
  induction d with
  | nil => simp [dictGet?]
  | cons a rest ih =>
    obtain ⟨ak, av⟩ := a
    by_cases h : ak = k
    · simp [dictGet?, h]
    · simp [dictGet?, beqF h, ih, h, Ne.symm h]

theorem dictGet?_foldl_writes {α : Type} (ws : List (String × α)) :
    ∀ (acc : PyDict α) (k : String),
    dictGet? (ws.foldl (fun a kv => dictSet a kv.1 kv.2) acc) k =
      (match lastWrite ws k with
       | Option.some v => Option.some v
       | Option.none => dictGet? acc k) := by
  induction ws with
  | nil => intro acc k; simp [lastWrite]
  | cons a rest ih =>
    intro acc k
    obtain ⟨ak, av⟩ := a
    simp only [List.foldl_cons]
    rw [ih]
    simp only [lastWrite]
    cases hrest : lastWrite rest k with
    | some w => simp
    | none =>
      rw [dictGet?_dictSet]
      by_cases h : ak = k
      · subst h; simp
      · simp [beqF h, Ne.symm h]

theorem dictUpdate_get {α : Type} (d u : PyDict α) (k : String) :
    dictGet? (dictUpdate d u) k =
      (match lastWrite u k with
       | Option.some v => Option.some v
       | Option.none => dictGet? d k) :=
  dictGet?_foldl_writes u d k

theorem lastWrite_append {α : Type} (ws1 ws2 : List (String × α)) (k : String) :
    lastWrite (ws1 ++ ws2) k =
      (match lastWrite ws2 k with
       | Option.some v => Option.some v
       | Option.none => lastWrite ws1 k) := by
  induction ws1 with
  | nil => simp only [List.nil_append, lastWrite]; cases lastWrite ws2 k <;> simp
  | cons a rest ih =>
    obtain ⟨ak, av⟩ := a
    simp only [List.cons_append, lastWrite, List.append_eq]
    rw [ih]
    cases h2 : lastWrite ws2 k <;> cases h1 : lastWrite rest k <;> simp

theorem lastWrite_isSome_iff {α : Type} (ws : List (String × α)) (k : String) :
    (lastWrite ws k).isSome = true ↔ k ∈ ws.map Prod.fst := by
  induction ws with
  | nil => simp [lastWrite]
  | cons a rest ih =>
    obtain ⟨ak, av⟩ := a
    simp only [lastWrite]
    cases hrest : lastWrite rest k with
    | some w => simp [hrest] at ih; simp [ih]
    | none =>
      simp [hrest] at ih
      by_cases h : ak = k
      · simp [h]
      · simp [beqF h, ih, h, Ne.symm h]

theorem lastWrite_eq_none {α : Type} (ws : List (String × α)) (k : String)
    (h : ∀ kv ∈ ws, kv.1 ≠ k) : lastWrite ws k = Option.none := by
  cases hlw : lastWrite ws k with
  | none => rfl
  | some v =>
    have : k ∈ ws.map Prod.fst := (lastWrite_isSome_iff ws k).mp (by simp [hlw])
    obtain ⟨kv, hmem, hfst⟩ := List.mem_map.mp this
    exact absurd hfst (h kv hmem)

theorem dictSet_keys {α : Type} (d : PyDict α) (k : String) (v : α) :
    (dictSet d k v).map Prod.fst =
      if k ∈ d.map Prod.fst then d.map Prod.fst else d.map Prod.fst ++ [k] := by
  induction d with
  | nil => simp [dictSet]
  | cons a rest ih =>
    obtain ⟨ak, av⟩ := a
    by_cases h : ak = k
    · subst h; simp [dictSet]
    · simp only [dictSet, beqF h, Bool.false_eq_true, if_false, List.map_cons, ih]
      by_cases hm : k ∈ rest.map Prod.fst
      · simp [hm, Ne.symm h]
      · simp [hm, Ne.symm h]

theorem dictSet_keys_nodup {α : Type} (d : PyDict α) (k : String) (v : α)
    (h : (d.map Prod.fst).Nodup) : ((dictSet d k v).map Prod.fst).Nodup := by
  rw [dictSet_keys]
  by_cases hm : k ∈ d.map Prod.fst
  · simpa [hm] using h
  · simp only [hm, if_false]
    exact List.Nodup.append h (List.nodup_singleton k)
      (List.disjoint_singleton.mpr hm)

/-! ## Lemmas relating the dispatcher loops to their write sequences -/

namespace BatchMessageSender

variable {σ : Type}

theorem contentLoop_eq_writes (o : UIOracle σ) (items : List PyVal)
    (recips : List String) : ∀ (s : σ) (acc : PyDict Bool),
    contentLoop o s items recips acc =
      (match contentWrites o s items recips with
       | (s', c, .error e) => (s', c, .error e)
       | (s', c, .ok ws) =>
         (s', c, .ok (List.foldl (fun a kv => dictSet a kv.1 kv.2) acc ws))) := by
  induction items with
  | nil => intro s acc; simp [contentLoop, contentWrites]
  | cons it rest ih =>
    intro s acc
    simp only [contentLoop, contentWrites]
    rcases hsm : send_message o s it recips with ⟨s1, c1, r⟩
    cases r with
    | error e => simp
    | ok od =>
      cases od with
      | none => simp
      | some d =>
        simp only
        rw [ih s1 (dictUpdate acc d)]
        rcases h2 : contentWrites o s1 rest recips with ⟨s2, c2, r2⟩
        cases r2 with
        | error e => simp
        | ok ws => simp [dictUpdate, List.foldl_append]

theorem contentLoop_writes_ok {o : UIOracle σ} {items : List PyVal}
    {recips : List String} {s s' : σ} {c : List Call} {ws : List (String × Bool)}
    (h : contentWrites o s items recips = (s', c, .ok ws)) (acc : PyDict Bool) :
    contentLoop o s items recips acc =
      (s', c, .ok (List.foldl (fun a kv => dictSet a kv.1 kv.2) acc ws)) := by
  rw [contentLoop_eq_writes, h]

theorem contentLoop_writes_err {o : UIOracle σ} {items : List PyVal}
    {recips : List String} {s s' : σ} {c : List Call} {e : Unit}
    (h : contentWrites o s items recips = (s', c, .error e)) (acc : PyDict Bool) :
    contentLoop o s items recips acc = (s', c, .error e) := by
  rw [contentLoop_eq_writes, h]

theorem groupLoop_eq_writes (o : UIOracle σ) (mtags mbl : List String)
    (items : List PyVal) (groups : List (String × PyVal)) :
    ∀ (s : σ) (acc : PyDict Bool),
    groupLoop o s mtags mbl items groups acc =
      (match groupWrites o s mtags mbl items groups with
       | (s', c, .error e) => (s', c, .error e)
       | (s', c, .ok ws) =>
         (s', c, .ok (List.foldl (fun a kv => dictSet a kv.1 kv.2) acc ws))) := by
  induction groups with
  | nil => intro s acc; simp [groupLoop, groupWrites]
  | cons g rest ih =>
    intro s acc
    obtain ⟨gn, gc⟩ := g
    simp only [groupLoop, groupWrites]
    by_cases hm : tags_match mtags (groupTags gc) (Option.some mbl) = true
    · simp only [hm, if_true]
      rcases hcw : contentWrites o s items (groupRecipients gc) with ⟨s1, c1, r1⟩
      cases r1 with
      | error e => simp [contentLoop_writes_err hcw]
      | ok ws1 =>
        rw [contentLoop_writes_ok hcw acc]
        simp only
        rw [ih s1 (List.foldl (fun a kv => dictSet a kv.1 kv.2) acc ws1)]
        rcases h2 : groupWrites o s1 mtags mbl items rest with ⟨s2, c2, r2⟩
        cases r2 with
        | error e => simp
        | ok ws2 => simp [List.foldl_append]
    · simp only [Bool.not_eq_true] at hm
      simp only [hm, Bool.false_eq_true, if_false]
      exact ih s acc

theorem groupLoop_writes_ok {o : UIOracle σ} {mtags mbl : List String}
    {items : List PyVal} {groups : List (String × PyVal)} {s s' : σ}
    {c : List Call} {ws : List (String × Bool)}
    (h : groupWrites o s mtags mbl items groups = (s', c, .ok ws)) (acc : PyDict Bool) :
    groupLoop o s mtags mbl items groups acc =
      (s', c, .ok (List.foldl (fun a kv => dictSet a kv.1 kv.2) acc ws)) := by
  rw [groupLoop_eq_writes, h]

theorem groupWrites_append (o : UIOracle σ) (mtags mbl : List String)
    (items : List PyVal) (pre post : List (String × PyVal)) :
    ∀ (s : σ),
    groupWrites o s mtags mbl items (pre ++ post) =
      (match groupWrites o s mtags mbl items pre with
       | (s1, c1, .error e) => (s1, c1, .error e)
       | (s1, c1, .ok ws1) =>
         (match groupWrites o s1 mtags mbl items post with
          | (s2, c2, .error e) => (s2, c1 ++ c2, .error e)
          | (s2, c2, .ok ws2) => (s2, c1 ++ c2, .ok (ws1 ++ ws2)))) := by
  induction pre with
  | nil =>
    intro s
    simp only [List.nil_append, groupWrites]
    rcases h : groupWrites o s mtags mbl items post with ⟨s2, c2, r2⟩
    cases r2 <;> simp
  | cons g rest ih =>
    intro s
    obtain ⟨gn, gc⟩ := g
    simp only [List.cons_append, groupWrites]
    by_cases hm : tags_match mtags (groupTags gc) (Option.some mbl) = true
    · simp only [hm, if_true]
      rcases hcw : contentWrites o s items (groupRecipients gc) with ⟨s1, c1, r1⟩
      cases r1 with
      | error e => simp
      | ok ws1 =>
        simp only [List.append_eq]
        rw [ih s1]
        rcases h2 : groupWrites o s1 mtags mbl items rest with ⟨s2, c2, r2⟩
        cases r2 with
        | error e => simp
        | ok ws2 =>
          rcases h3 : groupWrites o s2 mtags mbl items post with ⟨s3, c3, r3⟩
          cases r3 <;> simp [h3, List.append_assoc]
    · simp only [Bool.not_eq_true] at hm
      simp only [hm, Bool.false_eq_true, if_false]
      exact ih s

theorem msgLoop_append (o : UIOracle σ) (groups : List (String × PyVal))
    (a b : List (String × PyVal)) : ∀ (s : σ) (acc : PyDict (PyDict Bool)),
    msgLoop o s groups (a ++ b) acc =
      (match msgLoop o s groups a acc with
       | (s1, c1, .error e) => (s1, c1, .error e)
       | (s1, c1, .ok acc1) =>
         (match msgLoop o s1 groups b acc1 with
          | (s2, c2, r) => (s2, c1 ++ c2, r))) := by
  induction a with
  | nil =>
    intro s acc
    simp only [List.nil_append, msgLoop]
  | cons m rest ih =>
    intro s acc
    obtain ⟨mn, mc⟩ := m
    simp only [List.cons_append, msgLoop]
    rcases hg : groupLoop o s (msgTags mc) (msgBlacklist mc) (msgContent mc) groups []
      with ⟨s1, c1, r1⟩
    cases r1 with
    | error e => simp
    | ok mres =>
      simp only [List.append_eq]
      rw [ih s1 (dictSet acc mn mres)]
      rcases h2 : msgLoop o s1 groups rest (dictSet acc mn mres) with ⟨s2, c2, r2⟩
      cases r2 with
      | error e => simp
      | ok acc2 =>
        rcases h3 : msgLoop o s2 groups b acc2 with ⟨s3, c3, r3⟩
        simp [h3, List.append_assoc]

theorem msgLoop_preserve (o : UIOracle σ) (groups : List (String × PyVal))
    (msgs : List (String × PyVal)) (mn : String)
    (hmn : mn ∉ msgs.map Prod.fst) : ∀ (s s' : σ) (c : List Call)
    (acc res : PyDict (PyDict Bool)),
    msgLoop o s groups msgs acc = (s', c, .ok res) →
    dictGet? res mn = dictGet? acc mn := by
  induction msgs with
  | nil =>
    intro s s' c acc res h
    simp only [msgLoop] at h
    cases h
    rfl
  | cons m rest ih =>
    intro s s' c acc res h
    obtain ⟨mn', mc'⟩ := m
    simp only [List.map_cons, List.mem_cons] at hmn
    push_neg at hmn
    obtain ⟨hne, hrest⟩ := hmn
    simp only [msgLoop] at h
    rcases hg : groupLoop o s (msgTags mc') (msgBlacklist mc') (msgContent mc') groups []
      with ⟨s1, c1, r1⟩
    rw [hg] at h
    cases r1 with
    | error e => simp at h
    | ok mres =>
      simp only at h
      rcases h2 : msgLoop o s1 groups rest (dictSet acc mn' mres) with ⟨s2, c2, r2⟩
      rw [h2] at h
      cases r2 with
      | error e => simp at h
      | ok acc2 =>
        simp only [Prod.mk.injEq] at h
        obtain ⟨-, -, hres⟩ := h
        cases hres
        rw [ih hrest s1 s2 c2 _ _ h2, dictGet?_dictSet, if_neg hne]

end BatchMessageSender

theorem allFalse_get (rs : List String) (r : String) :
    dictGet? (allFalse rs) r = if r ∈ rs then Option.some false else Option.none := by
  have key : ∀ (l : List String) (acc : PyDict Bool),
      dictGet? (l.foldl (fun d x => dictSet d x false) acc) r =
        if r ∈ l then Option.some false else dictGet? acc r := by
    intro l
    induction l with
    | nil => intro acc; simp
    | cons x rest ih =>
      intro acc
      simp only [List.foldl_cons]
      rw [ih, dictGet?_dictSet]
      by_cases h : r ∈ rest
      · simp [h]
      · by_cases hx : r = x <;> simp [h, hx]
  simpa [allFalse, dictGet?] using key rs []

theorem allFalse_mem_keys (rs : List String) (r : String) :
    r ∈ (allFalse rs).map Prod.fst ↔ r ∈ rs := by
  rw [← dictGet?_isSome_iff_mem, allFalse_get]
  by_cases h : r ∈ rs <;> simp [h]

theorem foldl_dictSet_nodup {α : Type} (ws : List (String × α)) :
    ∀ (acc : PyDict α), (acc.map Prod.fst).Nodup →
    (((ws.foldl (fun a kv => dictSet a kv.1 kv.2) acc)).map Prod.fst).Nodup := by
  induction ws with
  | nil => intro acc h; exact h
  | cons a rest ih =>
    intro acc h
    exact ih (dictSet acc a.1 a.2) (dictSet_keys_nodup acc a.1 a.2 h)

theorem allFalse_nodup (rs : List String) : ((allFalse rs).map Prod.fst).Nodup := by
  have key : ∀ (l : List String) (acc : PyDict Bool), (acc.map Prod.fst).Nodup →
      ((l.foldl (fun d x => dictSet d x false) acc).map Prod.fst).Nodup := by
    intro l
    induction l with
    | nil => intro acc h; exact h
    | cons x rest ih =>
      intro acc h
      exact ih (dictSet acc x false) (dictSet_keys_nodup acc x false h)
  exact key rs [] (by simp)

theorem lastWrite_eq_dictGet? {α : Type} (d : PyDict α)
    (h : (d.map Prod.fst).Nodup) (k : String) : lastWrite d k = dictGet? d k := by
  induction d with
  | nil => rfl
  | cons a rest ih =>
    obtain ⟨ak, av⟩ := a
    simp only [List.map_cons, List.nodup_cons] at h
    obtain ⟨hak, hrest⟩ := h
    simp only [lastWrite, dictGet?]
    by_cases he : ak = k
    · subst he
      have : lastWrite rest ak = Option.none := by
        cases hlw : lastWrite rest ak with
        | none => rfl
        | some w =>
          have : ak ∈ rest.map Prod.fst :=
            (lastWrite_isSome_iff rest ak).mp (by simp [hlw])
          exact absurd this hak
      simp [this]
    · rw [ih hrest]
      cases dictGet? rest k <;> simp [beqF he]

/-! ## Lemmas about the collaborator send loops -/

namespace WeChatMac

variable {σ : Type}

theorem textLoop_get (o : UIOracle σ) (rs : List String) : ∀ (s : σ)
    (acc : PyDict Bool) (r : String),
    (dictGet? (textLoop o s rs acc).2 r).isSome = true ↔
      r ∈ rs ∨ (dictGet? acc r).isSome = true := by
  induction rs with
  | nil => intro s acc r; simp [textLoop]
  | cons x rest ih =>
    intro s acc r
    simp only [textLoop]
    rcases h1 : textOne o s x with ⟨s1, b⟩
    simp only []
    rw [ih]
    rw [dictGet?_dictSet]
    by_cases hx : r = x
    · simp [hx]
    · simp [hx]

theorem clipLoop_get (o : UIOracle σ) (rs : List String) : ∀ (s : σ)
    (acc : PyDict Bool) (r : String),
    (dictGet? (clipLoop o s rs acc).2 r).isSome = true ↔
      r ∈ rs ∨ (dictGet? acc r).isSome = true := by
  induction rs with
  | nil => intro s acc r; simp [clipLoop]
  | cons x rest ih =>
    intro s acc r
    simp only [clipLoop]
    rcases h1 : clipOne o s x with ⟨s1, b⟩
    simp only []
    rw [ih]
    rw [dictGet?_dictSet]
    by_cases hx : r = x
    · simp [hx]
    · simp [hx]

theorem textLoop_nodup (o : UIOracle σ) (rs : List String) : ∀ (s : σ)
    (acc : PyDict Bool), (acc.map Prod.fst).Nodup →
    (((textLoop o s rs acc).2).map Prod.fst).Nodup := by
  induction rs with
  | nil => intro s acc h; exact h
  | cons x rest ih =>
    intro s acc h
    simp only [textLoop]
    rcases h1 : textOne o s x with ⟨s1, b⟩
    exact ih s1 (dictSet acc x b) (dictSet_keys_nodup acc x b h)

theorem clipLoop_nodup (o : UIOracle σ) (rs : List String) : ∀ (s : σ)
    (acc : PyDict Bool), (acc.map Prod.fst).Nodup →
    (((clipLoop o s rs acc).2).map Prod.fst).Nodup := by
  induction rs with
  | nil => intro s acc h; exact h
  | cons x rest ih =>
    intro s acc h
    simp only [clipLoop]
    rcases h1 : clipOne o s x with ⟨s1, b⟩
    exact ih s1 (dictSet acc x b) (dictSet_keys_nodup acc x b h)

/-- Every recipient gets an entry from `send_messages_to_recipients`
whenever the message body is truthy and the call returns (rather than
raising from `_prepare_message`). -/
theorem send_messages_complete (o : UIOracle σ) (s : σ) (msg : PyVal)
    (rs : List String) (htr : pyTruthy msg = true) {s' : σ} {d : PyDict Bool}
    (h : send_messages_to_recipients o s msg rs = (s', .ok d)) :
    ∀ r ∈ rs, (dictGet? d r).isSome = true := by
  unfold send_messages_to_recipients at h
  by_cases he : rs.isEmpty
  · intro r hr
    rw [List.isEmpty_iff] at he
    subst he
    cases hr
  · rw [htr] at h
    simp only [he, Bool.not_true, Bool.false_or, Bool.false_eq_true, if_false] at h
    rcases hp : o.prepare s msg with ⟨s1, pr⟩
    rw [hp] at h
    cases pr with
    | exn => simp at h
    | val pb =>
      cases pb with
      | false =>
        simp only [Prod.mk.injEq, Except.ok.injEq] at h
        obtain ⟨-, hd⟩ := h
        subst hd
        intro r hr
        rw [allFalse_get]
        simp [hr]
      | true =>
        simp only [] at h
        rcases ht : textLoop o s1 rs [] with ⟨s2, d2⟩
        rw [ht] at h
        simp only [Prod.mk.injEq, Except.ok.injEq] at h
        obtain ⟨-, hd⟩ := h
        subst hd
        intro r hr
        have := (textLoop_get o rs s1 [] r).mpr (Or.inl hr)
        rw [ht] at this
        exact this

/-- Entries recorded by `send_messages_to_recipients` only concern
recipients that were passed in. -/
theorem send_messages_keys (o : UIOracle σ) (s : σ) (msg : PyVal)
    (rs : List String) {s' : σ} {d : PyDict Bool}
    (h : send_messages_to_recipients o s msg rs = (s', .ok d)) :
    ∀ r, (dictGet? d r).isSome = true → r ∈ rs := by
  unfold send_messages_to_recipients at h
  by_cases hguard : (!pyTruthy msg || rs.isEmpty) = true
  · rw [if_pos hguard] at h
    simp only [Prod.mk.injEq, Except.ok.injEq] at h
    obtain ⟨-, hd⟩ := h
    subst hd
    intro r hr
    simp [dictGet?] at hr
  · rw [if_neg (by simpa using hguard)] at h
    rcases hp : o.prepare s msg with ⟨s1, pr⟩
    rw [hp] at h
    cases pr with
    | exn => simp at h
    | val pb =>
      cases pb with
      | false =>
        simp only [Prod.mk.injEq, Except.ok.injEq] at h
        obtain ⟨-, hd⟩ := h
        subst hd
        intro r hr
        rw [allFalse_get] at hr
        by_cases hm : r ∈ rs
        · exact hm
        · simp [hm] at hr
      | true =>
        simp only [] at h
        rcases ht : textLoop o s1 rs [] with ⟨s2, d2⟩
        rw [ht] at h
        simp only [Prod.mk.injEq, Except.ok.injEq] at h
        obtain ⟨-, hd⟩ := h
        subst hd
        intro r hr
        have := (textLoop_get o rs s1 [] r).mp (by rw [ht]; exact hr)
        rcases this with hin | habs
        · exact hin
        · simp [dictGet?] at habs

/-- `send_clipboard_to_recipients` always returns an entry for every
recipient passed, and only for those. -/
theorem send_clipboard_spec (o : UIOracle σ) (s : σ) (rs : List String)
    {s' : σ} {d : PyDict Bool}
    (h : send_clipboard_to_recipients o s rs = (s', d)) :
    ∀ r, (dictGet? d r).isSome = true ↔ r ∈ rs := by
  unfold send_clipboard_to_recipients at h
  by_cases he : rs.isEmpty
  · rw [if_pos he] at h
    simp only [Prod.mk.injEq] at h
    obtain ⟨-, hd⟩ := h
    subst hd
    rw [List.isEmpty_iff] at he
    subst he
    intro r
    simp [dictGet?]
  · rw [if_neg he] at h
    rcases hc : clipLoop o (o.getClip s) rs [] with ⟨s2, d2⟩
    rw [hc] at h
    simp only [Prod.mk.injEq] at h
    obtain ⟨-, hd⟩ := h
    subst hd
    intro r
    have := clipLoop_get o rs (o.getClip s) [] r
    rw [hc] at this
    simpa [dictGet?] using this

theorem send_messages_nodup (o : UIOracle σ) (s : σ) (msg : PyVal)
    (rs : List String) {s' : σ} {d : PyDict Bool}
    (h : send_messages_to_recipients o s msg rs = (s', .ok d)) :
    (d.map Prod.fst).Nodup := by
  unfold send_messages_to_recipients at h
  by_cases hguard : (!pyTruthy msg || rs.isEmpty) = true
  · rw [if_pos hguard] at h
    simp only [Prod.mk.injEq, Except.ok.injEq] at h
    obtain ⟨-, hd⟩ := h
    subst hd
    simp
  · rw [if_neg (by simpa using hguard)] at h
    rcases hp : o.prepare s msg with ⟨s1, pr⟩
    rw [hp] at h
    cases pr with
    | exn => simp at h
    | val pb =>
      cases pb with
      | false =>
        simp only [Prod.mk.injEq, Except.ok.injEq] at h
        obtain ⟨-, hd⟩ := h
        subst hd
        exact allFalse_nodup rs
      | true =>
        simp only [] at h
        rcases ht : textLoop o s1 rs [] with ⟨s2, d2⟩
        rw [ht] at h
        simp only [Prod.mk.injEq, Except.ok.injEq] at h
        obtain ⟨-, hd⟩ := h
        subst hd
        have := textLoop_nodup o rs s1 [] (by simp)
        rw [ht] at this
        exact this

theorem send_clipboard_nodup (o : UIOracle σ) (s : σ) (rs : List String)
    {s' : σ} {d : PyDict Bool}
    (h : send_clipboard_to_recipients o s rs = (s', d)) :
    (d.map Prod.fst).Nodup := by
  unfold send_clipboard_to_recipients at h
  by_cases he : rs.isEmpty
  · rw [if_pos he] at h
    simp only [Prod.mk.injEq] at h
    obtain ⟨-, hd⟩ := h
    subst hd
    simp
  · rw [if_neg he] at h
    rcases hc : clipLoop o (o.getClip s) rs [] with ⟨s2, d2⟩
    rw [hc] at h
    simp only [Prod.mk.injEq] at h
    obtain ⟨-, hd⟩ := h
    subst hd
    have := clipLoop_nodup o rs (o.getClip s) [] (by simp)
    rw [hc] at this
    exact this

end WeChatMac

/-! ## Inversion lemmas for the validators -/

theorem pyEqStr_eq {v : PyVal} {s : String} (h : pyEqStr v s = true) : v = .str s := by
  cases v <;> simp [pyEqStr] at h
  rw [h]

theorem pyItems_ok {v : PyVal} {l : List (String × PyVal)}
    (h : pyItems v = .ok l) : v = .dict l := by
  cases v <;> simp [pyItems] at h
  rw [h]

namespace BatchMessageSender

theorem vmImage_src {it : PyVal} (h : vmImage it = .ok true) :
    pySub it "source" = .ok (.str "file") := by
  unfold vmImage at h
  cases h1 : pyIn "source" it with
  | error e => rw [h1] at h; simp at h
  | ok hasS =>
    rw [h1] at h
    cases hasS with
    | false => simp at h
    | true =>
      simp only [Bool.not_true, Bool.false_eq_true, if_false] at h
      cases h2 : pySub it "source" with
      | error e => rw [h2] at h; simp at h
      | ok src =>
        rw [h2] at h
        by_cases hf : pyEqStr src "file" = true
        · rw [pyEqStr_eq hf]
        · simp only [Bool.not_eq_true] at hf
          simp [hf] at h

theorem validate_message_types {it : PyVal} (h : validate_message it = .ok true) :
    pySub it "type" = .ok (.str "text") ∨
      (pySub it "type" = .ok (.str "image") ∧ vmImage it = .ok true) := by
  unfold validate_message at h
  cases h1 : pyIn "type" it with
  | error e => rw [h1] at h; simp at h
  | ok hasTy =>
    rw [h1] at h
    cases hasTy with
    | false => simp at h
    | true =>
      simp only [Bool.not_true, Bool.false_eq_true, if_false] at h
      cases h2 : pySub it "type" with
      | error e => rw [h2] at h; simp at h
      | ok ty =>
        rw [h2] at h
        by_cases ht : pyEqStr ty "text" = true
        · left
          rw [pyEqStr_eq ht]
        · by_cases hi : pyEqStr ty "image" = true
          · right
            refine ⟨by rw [pyEqStr_eq hi], ?_⟩
            simp only [Bool.not_eq_true] at ht
            simpa [ht, hi] using h
          · simp only [Bool.not_eq_true] at ht hi
            simp [ht, hi] at h

theorem validateContents_ok {items : List PyVal}
    (h : validateContents items = .ok true) :
    ∀ it ∈ items, validate_message it = .ok true := by
  induction items with
  | nil => intro it hit; cases hit
  | cons m rest ih =>
    intro it hit
    simp only [validateContents] at h
    cases h1 : validate_message m with
    | error e => rw [h1] at h; simp at h
    | ok b =>
      rw [h1] at h
      cases b with
      | false => simp at h
      | true =>
        simp only [Bool.not_true, Bool.false_eq_true, if_false] at h
        rcases List.mem_cons.mp hit with he | hr
        · rw [he]; exact h1
        · exact ih h it hr

theorem validateMessages_content {ms : List (String × PyVal)}
    (h : validateMessages ms = .ok true) :
    ∀ p ∈ ms, ∃ cv, pySub p.2 "content" = .ok cv ∧ pyIsList cv = true ∧
      validateContents (pyValList cv) = .ok true := by
  induction ms with
  | nil => intro p hp; cases hp
  | cons m rest ih =>
    intro p hp
    obtain ⟨mn, mc⟩ := m
    simp only [validateMessages] at h
    cases h1 : pyIn "tags" mc with
    | error e => rw [h1] at h; simp at h
    | ok b1 =>
      rw [h1] at h
      cases b1 with
      | false => simp at h
      | true =>
        simp only [Bool.not_true, Bool.false_eq_true, if_false] at h
        cases h2 : pyIn "content" mc with
        | error e => rw [h2] at h; simp at h
        | ok b2 =>
          rw [h2] at h
          cases b2 with
          | false => simp at h
          | true =>
            simp only [Bool.not_true, Bool.false_eq_true, if_false] at h
            cases h3 : pySub mc "tags" with
            | error e => rw [h3] at h; simp at h
            | ok tv =>
              rw [h3] at h
              by_cases h4 : pyIsList tv = true
              · simp only [h4, Bool.not_true, Bool.false_eq_true, if_false] at h
                cases h5 : pySub mc "content" with
                | error e => rw [h5] at h; simp at h
                | ok cv =>
                  rw [h5] at h
                  by_cases h6 : pyIsList cv = true
                  · simp only [h6, Bool.not_true, Bool.false_eq_true, if_false] at h
                    cases h7 : pyIn "blacklist_tags" mc with
                    | error e => rw [h7] at h; simp at h
                    | ok hb =>
                      rw [h7] at h
                      have hcont : validateContents (pyValList cv) = .ok true ∧
                          validateMessages rest = .ok true := by
                        cases hb with
                        | false =>
                          simp only [Bool.false_eq_true, if_false] at h
                          cases h9 : validateContents (pyValList cv) with
                          | error e => rw [h9] at h; simp at h
                          | ok cb =>
                            rw [h9] at h
                            cases cb with
                            | false => simp at h
                            | true =>
                              simp only [Bool.not_true, Bool.false_eq_true,
                                if_false] at h
                              exact ⟨rfl, h⟩
                        | true =>
                          simp only [if_true] at h
                          cases h8 : pySub mc "blacklist_tags" with
                          | error e => rw [h8] at h; simp at h
                          | ok bv =>
                            rw [h8] at h
                            by_cases h8b : pyIsList bv = true
                            · simp only [h8b, Bool.not_true, Bool.false_eq_true,
                                if_false] at h
                              cases h9 : validateContents (pyValList cv) with
                              | error e => rw [h9] at h; simp at h
                              | ok cb =>
                                rw [h9] at h
                                cases cb with
                                | false => simp at h
                                | true =>
                                  simp only [Bool.not_true, Bool.false_eq_true,
                                    if_false] at h
                                  exact ⟨rfl, h⟩
                            · simp only [Bool.not_eq_true] at h8b
                              simp [h8b] at h
                      rcases List.mem_cons.mp hp with he | hr
                      · rw [he]
                        exact ⟨cv, h5, h6, hcont.1⟩
                      · exact ih hcont.2 p hr
                  · simp only [Bool.not_eq_true] at h6
                    simp [h6] at h
              · simp only [Bool.not_eq_true] at h4
                simp [h4] at h

theorem validate_config_ok {cfg : PyVal} (h : validate_config cfg = .ok true) :
    ∃ gI mI, pySub cfg "groups" = .ok (.dict gI) ∧ validateGroups gI = .ok true ∧
      pySub cfg "messages" = .ok (.dict mI) ∧ validateMessages mI = .ok true := by
  unfold validate_config at h
  cases h1 : pyIn "groups" cfg with
  | error e => rw [h1] at h; simp at h
  | ok hg =>
    rw [h1] at h
    cases hg with
    | false => simp at h
    | true =>
      simp only [Bool.not_true, Bool.false_eq_true, if_false] at h
      cases h2 : pyIn "messages" cfg with
      | error e => rw [h2] at h; simp at h
      | ok hm =>
        rw [h2] at h
        cases hm with
        | false => simp at h
        | true =>
          simp only [Bool.not_true, Bool.false_eq_true, if_false] at h
          cases h3 : pySub cfg "groups" with
          | error e => rw [h3] at h; simp at h
          | ok gv =>
            rw [h3] at h
            simp only [] at h
            cases h4 : pyItems gv with
            | error e => rw [h4] at h; simp at h
            | ok gItems =>
              rw [h4] at h
              simp only [] at h
              cases h5 : validateGroups gItems with
              | error e => rw [h5] at h; simp at h
              | ok gOk =>
                rw [h5] at h
                cases gOk with
                | false => simp at h
                | true =>
                  simp only [Bool.not_true, Bool.false_eq_true, if_false] at h
                  cases h6 : pySub cfg "messages" with
                  | error e => rw [h6] at h; simp at h
                  | ok mv =>
                    rw [h6] at h
                    simp only [] at h
                    cases h7 : pyItems mv with
                    | error e => rw [h7] at h; simp at h
                    | ok mItems =>
                      rw [h7] at h
                      simp only [] at h
                      cases h8 : validateMessages mItems with
                      | error e => rw [h8] at h; simp at h
                      | ok mOk =>
                        rw [h8] at h
                        cases mOk with
                        | false => simp at h
                        | true =>
                          refine ⟨gItems, mItems, ?_, h5, ?_, h8⟩
                          · rw [pyItems_ok h4]
                          · rw [pyItems_ok h7]

/-- After successful validation, every content item of every message
enumerated by `batch_send` passes `validate_message`. -/
theorem validate_config_items {cfg : PyVal} (h : validate_config cfg = .ok true) :
    ∀ p ∈ cfgMessages cfg, ∀ it ∈ msgContent p.2, validate_message it = .ok true := by
  obtain ⟨gI, mI, hg, hgok, hm, hmok⟩ := validate_config_ok h
  intro p hp it hit
  have hcm : cfgMessages cfg = mI := by
    simp [cfgMessages, hm, pyDictItems, Except.toOption]
  rw [hcm] at hp
  obtain ⟨cv, hcv, hcvl, hcont⟩ := validateMessages_content hmok p hp
  have : msgContent p.2 = pyValList cv := by
    simp [msgContent, hcv, Except.toOption]
  rw [this] at hit
  exact validateContents_ok hcont it hit

end BatchMessageSender

/-! ## Spec lemmas for the dispatcher's `send_message` -/

namespace BatchMessageSender

variable {σ : Type}

/-- A result dict returned by `send_message` only has entries for the
recipients it was given. -/
theorem send_message_keys {o : UIOracle σ} {s : σ} {it : PyVal}
    {rs : List String} {s' : σ} {c : List Call} {d : PyDict Bool}
    (h : send_message o s it rs = (s', c, .ok (Option.some d))) :
    ∀ r, (dictGet? d r).isSome = true → r ∈ rs := by
  unfold send_message at h
  split at h
  · simp at h
  · simp only [Prod.mk.injEq, Except.ok.injEq, Option.some.injEq] at h
    obtain ⟨-, -, hd⟩ := h
    subst hd
    intro r hr
    have := (dictGet?_isSome_iff_mem _ r).mp hr
    rwa [allFalse_mem_keys] at this
  · split at h
    · simp only [] at h
      rcases hsm : WeChatMac.send_messages_to_recipients o s
        ((pySub it "content").toOption.getD PyVal.none) rs with ⟨s1, res⟩
      rw [hsm] at h
      simp only [] at h
      cases res with
      | error e =>
        simp only [Prod.mk.injEq, Except.ok.injEq, Option.some.injEq] at h
        obtain ⟨-, -, hd⟩ := h
        subst hd
        intro r hr
        have := (dictGet?_isSome_iff_mem _ r).mp hr
        rwa [allFalse_mem_keys] at this
      | ok d2 =>
        simp only [Prod.mk.injEq, Except.ok.injEq, Option.some.injEq] at h
        obtain ⟨-, -, hd⟩ := h
        subst hd
        exact fun r hr => WeChatMac.send_messages_keys o s _ rs hsm r hr
    · split at h
      · rcases hsc : WeChatMac.send_clipboard_to_recipients o s rs with ⟨s1, d2⟩
        rw [hsc] at h
        simp only [Prod.mk.injEq, Except.ok.injEq, Option.some.injEq] at h
        obtain ⟨-, -, hd⟩ := h
        subst hd
        exact fun r hr => (WeChatMac.send_clipboard_spec o s rs hsc r).mp hr
      · simp only [Prod.mk.injEq, Except.ok.injEq, Option.some.injEq] at h
        obtain ⟨-, -, hd⟩ := h
        subst hd
        intro r hr
        have := (dictGet?_isSome_iff_mem _ r).mp hr
        rwa [allFalse_mem_keys] at this
    · simp at h

/-- A `send_message` call on a sendable item records an entry for
every recipient it was given. -/
theorem send_message_complete {o : UIOracle σ} {s : σ} {it : PyVal}
    {rs : List String} {s' : σ} {c : List Call} {d : PyDict Bool}
    (hsend : itemSendable it = true)
    (h : send_message o s it rs = (s', c, .ok (Option.some d))) :
    ∀ r ∈ rs, (dictGet? d r).isSome = true := by
  unfold send_message at h
  split at h
  · simp at h
  · simp only [Prod.mk.injEq, Except.ok.injEq, Option.some.injEq] at h
    obtain ⟨-, -, hd⟩ := h
    subst hd
    intro r hr
    rw [dictGet?_isSome_iff_mem, allFalse_mem_keys]
    exact hr
  · split at h
    · rename_i hty
      simp only [] at h
      rcases hsm : WeChatMac.send_messages_to_recipients o s
        ((pySub it "content").toOption.getD PyVal.none) rs with ⟨s1, res⟩
      rw [hsm] at h
      simp only [] at h
      cases res with
      | error e =>
        simp only [Prod.mk.injEq, Except.ok.injEq, Option.some.injEq] at h
        obtain ⟨-, -, hd⟩ := h
        subst hd
        intro r hr
        rw [dictGet?_isSome_iff_mem, allFalse_mem_keys]
        exact hr
      | ok d2 =>
        simp only [Prod.mk.injEq, Except.ok.injEq, Option.some.injEq] at h
        obtain ⟨-, -, hd⟩ := h
        subst hd
        have htr : pyTruthy ((pySub it "content").toOption.getD PyVal.none) = true := by
          simpa [itemSendable, hty] using hsend
        exact WeChatMac.send_messages_complete o s _ rs htr hsm
    · split at h
      · rcases hsc : WeChatMac.send_clipboard_to_recipients o s rs with ⟨s1, d2⟩
        rw [hsc] at h
        simp only [Prod.mk.injEq, Except.ok.injEq, Option.some.injEq] at h
        obtain ⟨-, -, hd⟩ := h
        subst hd
        exact fun r hr => (WeChatMac.send_clipboard_spec o s rs hsc r).mpr hr
      · simp only [Prod.mk.injEq, Except.ok.injEq, Option.some.injEq] at h
        obtain ⟨-, -, hd⟩ := h
        subst hd
        intro r hr
        rw [dictGet?_isSome_iff_mem, allFalse_mem_keys]
        exact hr
    · simp at h

/-- On an item that passes `validate_message`, `send_message` always
returns a result dict (it neither raises nor returns `None`). -/
theorem send_message_ok {it : PyVal} (hval : validate_message it = .ok true)
    (o : UIOracle σ) (s : σ) (rs : List String) :
    ∃ s' c d, send_message o s it rs = (s', c, .ok (Option.some d)) := by
  unfold send_message
  rw [hval]
  rcases validate_message_types hval with hty | ⟨hty, hvm⟩
  · rw [hty]
    simp only []
    rcases hsm : WeChatMac.send_messages_to_recipients o s
      ((pySub it "content").toOption.getD PyVal.none) rs with ⟨s1, res⟩
    cases res with
    | error e =>
      exact ⟨s1, [Call.text ((pySub it "content").toOption.getD PyVal.none) rs],
        allFalse rs, by simp⟩
    | ok d2 =>
      exact ⟨s1, [Call.text ((pySub it "content").toOption.getD PyVal.none) rs],
        d2, by simp⟩
  · rw [hty, vmImage_src hvm]
    exact ⟨s, [], allFalse rs, rfl⟩

/-- Result dicts from `send_message` never contain a duplicated
recipient key. -/
theorem send_message_nodup {o : UIOracle σ} {s : σ} {it : PyVal}
    {rs : List String} {s' : σ} {c : List Call} {d : PyDict Bool}
    (h : send_message o s it rs = (s', c, .ok (Option.some d))) :
    (d.map Prod.fst).Nodup := by
  unfold send_message at h
  split at h
  · simp at h
  · simp only [Prod.mk.injEq, Except.ok.injEq, Option.some.injEq] at h
    obtain ⟨-, -, hd⟩ := h
    subst hd
    exact allFalse_nodup rs
  · split at h
    · simp only [] at h
      rcases hsm : WeChatMac.send_messages_to_recipients o s
        ((pySub it "content").toOption.getD PyVal.none) rs with ⟨s1, res⟩
      rw [hsm] at h
      simp only [] at h
      cases res with
      | error e =>
        simp only [Prod.mk.injEq, Except.ok.injEq, Option.some.injEq] at h
        obtain ⟨-, -, hd⟩ := h
        subst hd
        exact allFalse_nodup rs
      | ok d2 =>
        simp only [Prod.mk.injEq, Except.ok.injEq, Option.some.injEq] at h
        obtain ⟨-, -, hd⟩ := h
        subst hd
        exact WeChatMac.send_messages_nodup o s _ rs hsm
    · split at h
      · rcases hsc : WeChatMac.send_clipboard_to_recipients o s rs with ⟨s1, d2⟩
        rw [hsc] at h
        simp only [Prod.mk.injEq, Except.ok.injEq, Option.some.injEq] at h
        obtain ⟨-, -, hd⟩ := h
        subst hd
        exact WeChatMac.send_clipboard_nodup o s rs hsc
      · simp only [Prod.mk.injEq, Except.ok.injEq, Option.some.injEq] at h
        obtain ⟨-, -, hd⟩ := h
        subst hd
        exact allFalse_nodup rs
    · simp at h

end BatchMessageSender

/-! ## Spec lemmas for the dispatcher loops -/

namespace BatchMessageSender

variable {σ : Type}

theorem contentWrites_keys {o : UIOracle σ} {items : List PyVal}
    {recips : List String} : ∀ {s s' : σ} {c : List Call}
    {ws : List (String × Bool)},
    contentWrites o s items recips = (s', c, .ok ws) →
    ∀ kv ∈ ws, kv.1 ∈ recips := by
  induction items with
  | nil =>
    intro s s' c ws h kv hkv
    simp only [contentWrites] at h
    cases h
    cases hkv
  | cons it rest ih =>
    intro s s' c ws h kv hkv
    simp only [contentWrites] at h
    rcases hsm : send_message o s it recips with ⟨s1, c1, r⟩
    rw [hsm] at h
    cases r with
    | error e => simp at h
    | ok od =>
      cases od with
      | none => simp at h
      | some d =>
        simp only [] at h
        rcases h2 : contentWrites o s1 rest recips with ⟨s2, c2, r2⟩
        rw [h2] at h
        cases r2 with
        | error e => simp at h
        | ok ws2 =>
          simp only [Prod.mk.injEq, Except.ok.injEq] at h
          obtain ⟨-, -, hws⟩ := h
          subst hws
          rcases List.mem_append.mp hkv with hin | hin
          · exact send_message_keys hsm kv.1
              ((dictGet?_isSome_iff_mem d kv.1).mpr (List.mem_map_of_mem Prod.fst hin))
          · exact ih h2 kv hin

theorem contentWrites_ok {items : List PyVal} {recips : List String}
    (hval : ∀ it ∈ items, validate_message it = .ok true) (o : UIOracle σ) :
    ∀ s : σ, ∃ s' c ws, contentWrites o s items recips = (s', c, .ok ws) ∧
      (items ≠ [] → (∀ it ∈ items, itemSendable it = true) →
        ∀ r ∈ recips, r ∈ ws.map Prod.fst) := by
  induction items with
  | nil =>
    intro s
    exact ⟨s, [], [], rfl, fun hne _ => absurd rfl hne⟩
  | cons it rest ih =>
    intro s
    obtain ⟨s1, c1, d, hsm⟩ := send_message_ok
      (hval it (List.mem_cons_self it rest)) o s recips
    obtain ⟨s2, c2, ws2, h2, -⟩ :=
      ih (fun x hx => hval x (List.mem_cons_of_mem it hx)) s1
    refine ⟨s2, c1 ++ c2, d ++ ws2, ?_, ?_⟩
    · simp only [contentWrites]
      rw [hsm]
      simp only []
      rw [h2]
    · intro hne hsend r hr
      have hc := send_message_complete (hsend it (List.mem_cons_self it rest)) hsm r hr
      have : r ∈ d.map Prod.fst := (dictGet?_isSome_iff_mem d r).mp hc
      simp only [List.map_append, List.mem_append]
      exact Or.inl this

theorem groupWrites_keys {o : UIOracle σ} {mtags mbl : List String}
    {items : List PyVal} {groups : List (String × PyVal)} :
    ∀ {s s' : σ} {c : List Call} {ws : List (String × Bool)},
    groupWrites o s mtags mbl items groups = (s', c, .ok ws) →
    ∀ kv ∈ ws, ∃ g ∈ groups,
      tags_match mtags (groupTags g.2) (Option.some mbl) = true ∧
      kv.1 ∈ groupRecipients g.2 := by
  induction groups with
  | nil =>
    intro s s' c ws h kv hkv
    simp only [groupWrites] at h
    cases h
    cases hkv
  | cons g rest ih =>
    intro s s' c ws h kv hkv
    obtain ⟨gn, gc⟩ := g
    simp only [groupWrites] at h
    by_cases hm : tags_match mtags (groupTags gc) (Option.some mbl) = true
    · rw [if_pos hm] at h
      rcases hcw : contentWrites o s items (groupRecipients gc) with ⟨s1, c1, r1⟩
      rw [hcw] at h
      cases r1 with
      | error e => simp at h
      | ok ws1 =>
        simp only [] at h
        rcases h2 : groupWrites o s1 mtags mbl items rest with ⟨s2, c2, r2⟩
        rw [h2] at h
        cases r2 with
        | error e => simp at h
        | ok ws2 =>
          simp only [Prod.mk.injEq, Except.ok.injEq] at h
          obtain ⟨-, -, hws⟩ := h
          subst hws
          rcases List.mem_append.mp hkv with hin | hin
          · exact ⟨(gn, gc), List.mem_cons_self _ _, hm, contentWrites_keys hcw kv hin⟩
          · obtain ⟨g', hg', hmm, hrr⟩ := ih h2 kv hin
            exact ⟨g', List.mem_cons_of_mem _ hg', hmm, hrr⟩
    · simp only [Bool.not_eq_true] at hm
      rw [hm] at h
      simp only [Bool.false_eq_true, if_false] at h
      obtain ⟨g', hg', hmm, hrr⟩ := ih h kv hkv
      exact ⟨g', List.mem_cons_of_mem _ hg', hmm, hrr⟩

theorem groupWrites_ok {mtags mbl : List String} {items : List PyVal}
    {groups : List (String × PyVal)}
    (hval : ∀ it ∈ items, validate_message it = .ok true) (o : UIOracle σ) :
    ∀ s : σ, ∃ s' c ws, groupWrites o s mtags mbl items groups = (s', c, .ok ws) ∧
      (∀ gn gc, (gn, gc) ∈ groups →
        tags_match mtags (groupTags gc) (Option.some mbl) = true →
        items ≠ [] → (∀ it ∈ items, itemSendable it = true) →
        ∀ r ∈ groupRecipients gc, r ∈ ws.map Prod.fst) := by
  induction groups with
  | nil =>
    intro s
    exact ⟨s, [], [], rfl, fun gn gc hg => absurd hg (List.not_mem_nil _)⟩
  | cons g rest ih =>
    intro s
    obtain ⟨gn', gc'⟩ := g
    by_cases hm' : tags_match mtags (groupTags gc') (Option.some mbl) = true
    · obtain ⟨s1, c1, ws1, hcw, hcov1⟩ := contentWrites_ok hval o s
      obtain ⟨s2, c2, ws2, hgw, hcov2⟩ := ih s1
      refine ⟨s2, c1 ++ c2, ws1 ++ ws2, ?_, ?_⟩
      · simp only [groupWrites]
        rw [if_pos hm', hcw]
        simp only []
        rw [hgw]
      · intro gn gc hg hmatch hne hsend r hr
        simp only [List.map_append, List.mem_append]
        rcases List.mem_cons.mp hg with he | ht
        · obtain ⟨-, hgc⟩ := Prod.mk.injEq .. ▸ he
          subst hgc
          exact Or.inl (hcov1 hne hsend r hr)
        · exact Or.inr (hcov2 gn gc ht hmatch hne hsend r hr)
    · obtain ⟨s2, c2, ws2, hgw, hcov2⟩ := ih s
      refine ⟨s2, c2, ws2, ?_, ?_⟩
      · simp only [groupWrites]
        simp only [Bool.not_eq_true] at hm'
        rw [hm']
        simp only [Bool.false_eq_true, if_false]
        exact hgw
      · intro gn gc hg hmatch hne hsend r hr
        rcases List.mem_cons.mp hg with he | ht
        · obtain ⟨-, hgc⟩ := Prod.mk.injEq .. ▸ he
          subst hgc
          exact absurd hmatch (by simp [hm'])
        · exact hcov2 gn gc ht hmatch hne hsend r hr

theorem msgLoop_ok {groups msgs : List (String × PyVal)}
    (hval : ∀ p ∈ msgs, ∀ it ∈ msgContent p.2, validate_message it = .ok true)
    (o : UIOracle σ) : ∀ (s : σ) (acc : PyDict (PyDict Bool)),
    ∃ s' c res, msgLoop o s groups msgs acc = (s', c, .ok res) := by
  induction msgs with
  | nil => intro s acc; exact ⟨s, [], acc, rfl⟩
  | cons m rest ih =>
    intro s acc
    obtain ⟨mn, mc⟩ := m
    obtain ⟨s1, c1, ws, hgw, -⟩ :=
      @groupWrites_ok σ (msgTags mc) (msgBlacklist mc) (msgContent mc) groups
        (hval (mn, mc) (List.mem_cons_self _ _)) o s
    obtain ⟨s2, c2, res, h2⟩ :=
      ih (fun p hp => hval p (List.mem_cons_of_mem _ hp)) s1
        (dictSet acc mn (List.foldl (fun a kv => dictSet a kv.1 kv.2) [] ws))
    refine ⟨s2, c1 ++ c2, res, ?_⟩
    simp only [msgLoop]
    rw [groupLoop_writes_ok hgw []]
    simp only []
    rw [h2]

theorem groupLoop_nomatch {o : UIOracle σ} {mtags mbl : List String}
    {items : List PyVal} {groups : List (String × PyVal)}
    (hnone : ∀ p ∈ groups,
      tags_match mtags (groupTags p.2) (Option.some mbl) = false) :
    ∀ (s : σ) (acc : PyDict Bool),
    groupLoop o s mtags mbl items groups acc = (s, [], .ok acc) := by
  induction groups with
  | nil => intro s acc; rfl
  | cons g rest ih =>
    intro s acc
    obtain ⟨gn, gc⟩ := g
    simp only [groupLoop]
    rw [hnone (gn, gc) (List.mem_cons_self _ _)]
    simp only [Bool.false_eq_true, if_false]
    exact ih (fun p hp => hnone p (List.mem_cons_of_mem _ hp)) s acc

end BatchMessageSender

namespace BatchMessageSender

variable {σ : Type}

/-- The backbone of result completeness: under validation, with a
non-empty all-sendable content list, the matched group's recipients
all end up as keys of the per-message result. -/
theorem msgLoop_covers {groups : List (String × PyVal)} {mn : String}
    {mc : PyVal} {gn : String} {gc : PyVal} {r : String}
    (hg : (gn, gc) ∈ groups)
    (hmatch : tags_match (msgTags mc) (groupTags gc)
      (Option.some (msgBlacklist mc)) = true)
    (hne : msgContent mc ≠ [])
    (hsend : ∀ it ∈ msgContent mc, itemSendable it = true)
    (hr : r ∈ groupRecipients gc) (o : UIOracle σ) :
    ∀ msgs : List (String × PyVal),
    (∀ p ∈ msgs, ∀ it ∈ msgContent p.2, validate_message it = .ok true) →
    ((msgs.map Prod.fst).Nodup) → ((mn, mc) ∈ msgs) →
    ∀ (s : σ) (acc : PyDict (PyDict Bool)),
    ∃ s' c res mres, msgLoop o s groups msgs acc = (s', c, .ok res) ∧
      dictGet? res mn = Option.some mres ∧ (dictGet? mres r).isSome = true := by
  intro msgs
  induction msgs with
  | nil => intro _ _ hm; cases hm
  | cons m rest ih =>
    intro hval hnd hm s acc
    obtain ⟨mn', mc'⟩ := m
    obtain ⟨s1, c1, ws, hgw, hcov⟩ :=
      @groupWrites_ok σ (msgTags mc') (msgBlacklist mc') (msgContent mc') groups
        (hval (mn', mc') (List.mem_cons_self _ _)) o s
    have hglr := groupLoop_writes_ok hgw ([] : PyDict Bool)
    rcases List.mem_cons.mp hm with he | ht
    · obtain ⟨hmn', hmc'⟩ := Prod.mk.injEq .. ▸ he
      subst hmn'
      subst hmc'
      obtain ⟨s2, c2, res, h2⟩ :=
        msgLoop_ok (fun p hp => hval p (List.mem_cons_of_mem _ hp)) o s1
          (dictSet acc mn (List.foldl (fun a kv => dictSet a kv.1 kv.2) [] ws))
      simp only [List.map_cons, List.nodup_cons] at hnd
      have hpres := msgLoop_preserve o groups rest mn hnd.1 s1 s2 c2 _ _ h2
      refine ⟨s2, c1 ++ c2, res,
        List.foldl (fun a kv => dictSet a kv.1 kv.2) [] ws, ?_, ?_, ?_⟩
      · simp only [msgLoop]
        rw [hglr]
        simp only []
        rw [h2]
      · rw [hpres, dictGet?_dictSet, if_pos rfl]
      · have hmem : r ∈ ws.map Prod.fst :=
          hcov gn gc hg hmatch hne hsend r hr
        rw [dictGet?_foldl_writes]
        cases hlw : lastWrite ws r with
        | some v => simp
        | none =>
          have := (lastWrite_isSome_iff ws r).mpr hmem
          rw [hlw] at this
          cases this
    · obtain ⟨s2, c2, res, mres, h2, hres, hsome⟩ :=
        ih (fun p hp => hval p (List.mem_cons_of_mem _ hp))
          (by simp only [List.map_cons, List.nodup_cons] at hnd; exact hnd.2) ht s1
          (dictSet acc mn' (List.foldl (fun a kv => dictSet a kv.1 kv.2) [] ws))
      refine ⟨s2, c1 ++ c2, res, mres, ?_, hres, hsome⟩
      simp only [msgLoop]
      rw [hglr]
      simp only []
      rw [h2]

/-- The keys of the dispatcher result are exactly the message names,
in configuration order. -/
theorem msgLoop_keys {o : UIOracle σ} {groups : List (String × PyVal)} :
    ∀ (msgs : List (String × PyVal)), (msgs.map Prod.fst).Nodup →
    ∀ {s s' : σ} {c : List Call} {acc res : PyDict (PyDict Bool)},
    (∀ n ∈ msgs.map Prod.fst, n ∉ acc.map Prod.fst) →
    msgLoop o s groups msgs acc = (s', c, .ok res) →
    res.map Prod.fst = acc.map Prod.fst ++ msgs.map Prod.fst := by
  intro msgs
  induction msgs with
  | nil =>
    intro _ s s' c acc res _ h
    simp only [msgLoop] at h
    cases h
    simp
  | cons m rest ih =>
    intro hnd s s' c acc res hdisj h
    obtain ⟨mn, mc⟩ := m
    simp only [msgLoop] at h
    rcases hg : groupLoop o s (msgTags mc) (msgBlacklist mc) (msgContent mc) groups []
      with ⟨s1, c1, r1⟩
    rw [hg] at h
    cases r1 with
    | error e => simp at h
    | ok mres =>
      simp only [] at h
      rcases h2 : msgLoop o s1 groups rest (dictSet acc mn mres) with ⟨s2, c2, r2⟩
      rw [h2] at h
      cases r2 with
      | error e => simp at h
      | ok res2 =>
        simp only [Prod.mk.injEq] at h
        obtain ⟨-, -, hres⟩ := h
        cases hres
        simp only [List.map_cons, List.nodup_cons] at hnd
        have hmn_acc : mn ∉ acc.map Prod.fst :=
          hdisj mn (by simp)
        have hkeys : (dictSet acc mn mres).map Prod.fst = acc.map Prod.fst ++ [mn] := by
          rw [dictSet_keys, if_neg hmn_acc]
        have hdisj' : ∀ n ∈ rest.map Prod.fst, n ∉ (dictSet acc mn mres).map Prod.fst := by
          intro n hn
          rw [hkeys]
          simp only [List.mem_append, List.mem_singleton]
          push_neg
          exact ⟨hdisj n (by simp [hn]), fun he => hnd.1 (he ▸ hn)⟩
        rw [ih hnd.2 hdisj' h2, hkeys]
        simp

/-- A message whose tags match no group keeps an empty per-recipient
mapping in the result. -/
theorem msgLoop_empty_value {o : UIOracle σ} {groups : List (String × PyVal)}
    {mn : String} {mc : PyVal}
    (hnone : ∀ p ∈ groups,
      tags_match (msgTags mc) (groupTags p.2) (Option.some (msgBlacklist mc)) = false) :
    ∀ (msgs : List (String × PyVal)), (msgs.map Prod.fst).Nodup →
    (mn, mc) ∈ msgs →
    ∀ {s s' : σ} {c : List Call} {acc res : PyDict (PyDict Bool)},
    msgLoop o s groups msgs acc = (s', c, .ok res) →
    dictGet? res mn = Option.some [] := by
  intro msgs
  induction msgs with
  | nil => intro _ hm; cases hm
  | cons m rest ih =>
    intro hnd hm s s' c acc res h
    obtain ⟨mn', mc'⟩ := m
    simp only [msgLoop] at h
    rcases hg : groupLoop o s (msgTags mc') (msgBlacklist mc') (msgContent mc') groups []
      with ⟨s1, c1, r1⟩
    rw [hg] at h
    cases r1 with
    | error e => simp at h
    | ok mres =>
      simp only [] at h
      rcases h2 : msgLoop o s1 groups rest (dictSet acc mn' mres) with ⟨s2, c2, r2⟩
      rw [h2] at h
      cases r2 with
      | error e => simp at h
      | ok res2 =>
        simp only [Prod.mk.injEq] at h
        obtain ⟨-, -, hres⟩ := h
        cases hres
        simp only [List.map_cons, List.nodup_cons] at hnd
        rcases List.mem_cons.mp hm with he | ht
        · obtain ⟨hmn', hmc'⟩ := Prod.mk.injEq .. ▸ he
          subst hmn'
          subst hmc'
          rw [groupLoop_nomatch hnone s ([] : PyDict Bool)] at hg
          simp only [Prod.mk.injEq, Except.ok.injEq] at hg
          obtain ⟨-, -, hmres⟩ := hg
          subst hmres
          have := msgLoop_preserve o groups rest mn hnd.1 s1 s2 c2 _ _ h2
          rw [this, dictGet?_dictSet, if_pos rfl]
        · exact ih hnd.2 ht h2

end BatchMessageSender

namespace BatchMessageSender

variable {σ : Type}

theorem contentLoop_to_writes {o : UIOracle σ} {items : List PyVal}
    {recips : List String} {s s' : σ} {c : List Call} {acc d : PyDict Bool}
    (h : contentLoop o s items recips acc = (s', c, .ok d)) :
    ∃ ws, contentWrites o s items recips = (s', c, .ok ws) ∧
      d = List.foldl (fun a kv => dictSet a kv.1 kv.2) acc ws := by
  rw [contentLoop_eq_writes] at h
  rcases hw : contentWrites o s items recips with ⟨s2, c2, r2⟩
  rw [hw] at h
  cases r2 with
  | error e => simp at h
  | ok ws =>
    simp only [Prod.mk.injEq, Except.ok.injEq] at h
    obtain ⟨h1, h2, h3⟩ := h
    subst h1
    subst h2
    exact ⟨ws, rfl, h3.symm⟩

theorem groupLoop_to_writes {o : UIOracle σ} {mtags mbl : List String}
    {items : List PyVal} {groups : List (String × PyVal)} {s s' : σ}
    {c : List Call} {acc d : PyDict Bool}
    (h : groupLoop o s mtags mbl items groups acc = (s', c, .ok d)) :
    ∃ ws, groupWrites o s mtags mbl items groups = (s', c, .ok ws) ∧
      d = List.foldl (fun a kv => dictSet a kv.1 kv.2) acc ws := by
  rw [groupLoop_eq_writes] at h
  rcases hw : groupWrites o s mtags mbl items groups with ⟨s2, c2, r2⟩
  rw [hw] at h
  cases r2 with
  | error e => simp at h
  | ok ws =>
    simp only [Prod.mk.injEq, Except.ok.injEq] at h
    obtain ⟨h1, h2, h3⟩ := h
    subst h1
    subst h2
    exact ⟨ws, rfl, h3.symm⟩

theorem contentWrites_append (o : UIOracle σ) (recips : List String)
    (ipre ipost : List PyVal) : ∀ (s : σ),
    contentWrites o s (ipre ++ ipost) recips =
      (match contentWrites o s ipre recips with
       | (s1, c1, .error e) => (s1, c1, .error e)
       | (s1, c1, .ok ws1) =>
         (match contentWrites o s1 ipost recips with
          | (s2, c2, .error e) => (s2, c1 ++ c2, .error e)
          | (s2, c2, .ok ws2) => (s2, c1 ++ c2, .ok (ws1 ++ ws2)))) := by
  induction ipre with
  | nil =>
    intro s
    simp only [List.nil_append, contentWrites]
    rcases h : contentWrites o s ipost recips with ⟨s2, c2, r2⟩
    cases r2 <;> simp
  | cons it rest ih =>
    intro s
    simp only [List.cons_append, contentWrites]
    rcases hsm : send_message o s it recips with ⟨s1, c1, r1⟩
    cases r1 with
    | error e => simp
    | ok od =>
      cases od with
      | none => simp
      | some d =>
        simp only [List.append_eq]
        rw [ih s1]
        rcases h2 : contentWrites o s1 rest recips with ⟨s2, c2, r2⟩
        cases r2 with
        | error e => simp
        | ok ws2 =>
          rcases h3 : contentWrites o s2 ipost recips with ⟨s3, c3, r3⟩
          cases r3 <;> simp [h3, List.append_assoc]

end BatchMessageSender

/-! ## Claim theorems -/

open BatchMessageSender

/-- C1: for all message tag lists M and group tag lists G,
`tags_match(M, G)` with an absent (`None`) or empty blacklist returns
true iff the set of M and the set of G intersect. -/
theorem C1_tags_match_intersection (M G : List String) :
    (tags_match M G Option.none = true ↔ ∃ t, t ∈ M ∧ t ∈ G) ∧
    (tags_match M G (Option.some []) = true ↔ ∃ t, t ∈ M ∧ t ∈ G) := by
  constructor <;>
    simp [tags_match, List.any_eq_true, List.elem_iff]

/-- C10: a message with an empty tag list matches no group, whatever
the group tags and blacklist are. -/
theorem C10_tags_match_empty_tags (G : List String) (B : Option (List String)) :
    tags_match [] G B = false := by
  simp [tags_match]

/-- C2: whenever the group tags intersect the message blacklist tags,
`tags_match` returns false regardless of the positive match — the
blacklist check runs first. -/
theorem C2_tags_match_blacklist_precedence (M G B : List String)
    (h : ∃ t, t ∈ G ∧ t ∈ B) : tags_match M G (Option.some B) = false := by
  obtain ⟨t, htG, htB⟩ := h
  have hne : B.isEmpty = false := by
    cases B with
    | nil => cases htB
    | cons b bs => rfl
  simp [tags_match, hne, List.any_eq_true, List.elem_iff]
  intro hC
  exact (hC t htG htB).elim

theorem C2_witness :
    (∃ t, t ∈ ["a", "b"] ∧ t ∈ ["b"]) ∧
    tags_match ["x"] ["a", "b"] (Option.some ["b"]) = false :=
  ⟨⟨"b", by simp, by simp⟩,
   C2_tags_match_blacklist_precedence ["x"] ["a", "b"] ["b"] ⟨"b", by simp, by simp⟩⟩

/-- C6: a missing configuration file, an unparsable one, or one that
fails validation makes `batch_send` return the empty result with no
collaborator call (and no oracle-state change). -/
theorem C6_batch_send_config_error_empty (σ : Type) (o : UIOracle σ) (s : σ)
    (load : LoadResult)
    (h : load = .missing ∨ load = .parseError ∨
      ∃ cfg, load = .parsed cfg ∧ validate_config cfg = .ok false) :
    batch_send o s load = (s, [], .ok []) := by
  rcases h with h | h | ⟨cfg, hl, hv⟩
  · subst h; rfl
  · subst h; rfl
  · subst hl
    simp [batch_send, hv]

theorem C6_witness :
    ((LoadResult.missing = LoadResult.missing ∨ LoadResult.missing = .parseError ∨
      ∃ cfg, LoadResult.missing = .parsed cfg ∧ validate_config cfg = .ok false) ∧
     batch_send oracleT () .missing = ((), [], .ok [])) ∧
    validate_config (.dict [("groups", .dict [])]) = .ok false ∧
    batch_send oracleT () (.parsed (.dict [("groups", .dict [])])) = ((), [], .ok []) :=
  ⟨⟨Or.inl rfl, C6_batch_send_config_error_empty Unit oracleT () .missing (Or.inl rfl)⟩,
   rfl,
   C6_batch_send_config_error_empty Unit oracleT ()
     (.parsed (.dict [("groups", .dict [])]))
     (Or.inr (Or.inr ⟨_, rfl, rfl⟩))⟩

/-- C7: delivery failures are local.  (i) An item failing the
defensive `validate_message` re-check records `False` for every
recipient with no collaborator call and no oracle-state change;
(ii) a collaborator raise on a text item is caught and records
`False` for the same recipients; (iii) `batch_send` on a validated
configuration never raises, whatever the oracle does. -/
theorem C7_send_failures_local :
    (∀ (σ : Type) (o : UIOracle σ) (s : σ) (msg : PyVal) (rs : List String),
      validate_message msg = .ok false →
      send_message o s msg rs = (s, [], .ok (Option.some (allFalse rs)))) ∧
    (∀ (σ : Type) (o : UIOracle σ) (s s1 : σ) (msg : PyVal) (rs : List String),
      validate_message msg = .ok true →
      pySub msg "type" = .ok (.str "text") →
      WeChatMac.send_messages_to_recipients o s
        ((pySub msg "content").toOption.getD PyVal.none) rs = (s1, .error ()) →
      send_message o s msg rs =
        (s1, [Call.text ((pySub msg "content").toOption.getD PyVal.none) rs],
         .ok (Option.some (allFalse rs)))) ∧
    (∀ (σ : Type) (o : UIOracle σ) (s : σ) (cfg : PyVal),
      validate_config cfg = .ok true →
      ∃ s' c res, batch_send o s (.parsed cfg) = (s', c, .ok res)) := by
  refine ⟨?_, ?_, ?_⟩
  · intro σ o s msg rs h
    unfold send_message
    rw [h]
  · intro σ o s s1 msg rs hval hty hsm
    unfold send_message
    rw [hval]
    simp only []
    rw [hty]
    simp only []
    rw [hsm]
  · intro σ o s cfg hv
    obtain ⟨s', c, res, hrun⟩ := msgLoop_ok (validate_config_items hv) o s []
    refine ⟨s', c, res, ?_⟩
    simp only [batch_send]
    rw [hv]
    exact hrun

theorem C7_witness :
    (validate_message (.dict []) = .ok false ∧
     send_message oracleT () (.dict []) ["Alice"] =
       ((), [], .ok (Option.some (allFalse ["Alice"])))) ∧
    (validate_message (.dict [("type", .str "text"), ("content", .str "hi")]) = .ok true ∧
     WeChatMac.send_messages_to_recipients oracleRaise ()
       ((pySub (.dict [("type", .str "text"), ("content", .str "hi")]) "content").toOption.getD
         PyVal.none) ["Alice"] = ((), .error ()) ∧
     send_message oracleRaise () (.dict [("type", .str "text"), ("content", .str "hi")])
       ["Alice"] =
       ((), [Call.text ((pySub (.dict [("type", .str "text"), ("content", .str "hi")])
          "content").toOption.getD PyVal.none) ["Alice"]],
        .ok (Option.some (allFalse ["Alice"])))) ∧
    (validate_config cfgScenarioA = .ok true ∧
     ∃ s' c res, batch_send oracleT () (.parsed cfgScenarioA) = (s', c, .ok res)) :=
  ⟨⟨rfl, C7_send_failures_local.1 Unit oracleT () (.dict []) ["Alice"] rfl⟩,
   ⟨rfl, rfl,
    C7_send_failures_local.2.1 Unit oracleRaise () ()
      (.dict [("type", .str "text"), ("content", .str "hi")]) ["Alice"] rfl rfl rfl⟩,
   ⟨rfl, C7_send_failures_local.2.2 Unit oracleT () cfgScenarioA rfl⟩⟩

/-- C8 counterexample: `send_messages_to_recipients` with a falsy
(empty) message body returns the empty mapping even for a non-empty
recipient list, so the claimed "entry for every recipient passed" is
false as stated; and when `_prepare_message` raises, the call raises
instead of returning a mapping at all. -/
theorem C8_counterexample :
    pyTruthy (.str "") = false ∧
    WeChatMac.send_messages_to_recipients oracleT () (.str "") ["Alice"] =
      ((), .ok []) ∧
    dictGet? ([] : PyDict Bool) "Alice" = Option.none ∧
    WeChatMac.send_messages_to_recipients oracleRaise () (.str "hi") ["Alice"] =
      ((), .error ()) :=
  ⟨rfl, rfl, rfl, rfl⟩

/-- C8 (amended): with a truthy message body,
`send_messages_to_recipients` either raises (from `_prepare_message`)
or returns a mapping with a boolean entry for every recipient passed;
`send_clipboard_to_recipients` always returns such a mapping. -/
theorem C8_collaborator_result_complete :
    (∀ (σ : Type) (o : UIOracle σ) (s s' : σ) (msg : PyVal) (rs : List String)
      (d : PyDict Bool), pyTruthy msg = true →
      WeChatMac.send_messages_to_recipients o s msg rs = (s', .ok d) →
      ∀ r ∈ rs, (dictGet? d r).isSome = true) ∧
    (∀ (σ : Type) (o : UIOracle σ) (s s' : σ) (rs : List String) (d : PyDict Bool),
      WeChatMac.send_clipboard_to_recipients o s rs = (s', d) →
      ∀ r ∈ rs, (dictGet? d r).isSome = true) :=
  ⟨fun σ o s s' msg rs d ht h => WeChatMac.send_messages_complete o s msg rs ht h,
   fun σ o s s' rs d h r hr => (WeChatMac.send_clipboard_spec o s rs h r).mpr hr⟩

theorem C8_witness :
    (pyTruthy (.str "hi") = true ∧
     WeChatMac.send_messages_to_recipients oracleT () (.str "hi") ["Alice"] =
       ((), .ok [("Alice", true)]) ∧
     (dictGet? [("Alice", true)] "Alice").isSome = true) ∧
    (WeChatMac.send_clipboard_to_recipients oracleT () ["Bob"] =
       ((), [("Bob", true)]) ∧
     (dictGet? [("Bob", true)] "Bob").isSome = true) :=
  ⟨⟨rfl, rfl,
    C8_collaborator_result_complete.1 Unit oracleT () () (.str "hi") ["Alice"]
      [("Alice", true)] rfl rfl "Alice" (List.mem_singleton.mpr rfl)⟩,
   ⟨rfl,
    C8_collaborator_result_complete.2 Unit oracleT () () ["Bob"] [("Bob", true)]
      rfl "Bob" (List.mem_singleton.mpr rfl)⟩⟩

/-- C9: on a validated configuration (of the spec's shape: unique
message names), the result's keys are exactly the message names in
configuration order, and a message matched by no group keeps an empty
per-recipient mapping rather than being dropped. -/
theorem C9_batch_send_keys_exact (σ : Type) (o : UIOracle σ) (s : σ) (cfg : PyVal)
    (hv : validate_config cfg = .ok true)
    (hnd : ((cfgMessages cfg).map Prod.fst).Nodup) :
    ∃ s' c res, batch_send o s (.parsed cfg) = (s', c, .ok res) ∧
      res.map Prod.fst = (cfgMessages cfg).map Prod.fst ∧
      ∀ mn mc, (mn, mc) ∈ cfgMessages cfg →
        (∀ p ∈ cfgGroups cfg, tags_match (msgTags mc) (groupTags p.2)
          (Option.some (msgBlacklist mc)) = false) →
        dictGet? res mn = Option.some [] := by
  obtain ⟨s', c, res, hrun⟩ := msgLoop_ok (validate_config_items hv) o s []
  refine ⟨s', c, res, ?_, ?_, ?_⟩
  · simp only [batch_send]
    rw [hv]
    exact hrun
  · have := msgLoop_keys (cfgMessages cfg) hnd
      (fun n _ hmem => by simp at hmem) hrun
    simpa using this
  · intro mn mc hm hnone
    exact msgLoop_empty_value hnone (cfgMessages cfg) hnd hm hrun

theorem C9_witness :
    validate_config cfgScenarioB = .ok true ∧
    ((cfgMessages cfgScenarioB).map Prod.fst).Nodup ∧
    (∃ s' c res, batch_send oracleT () (.parsed cfgScenarioB) = (s', c, .ok res) ∧
      res.map Prod.fst = (cfgMessages cfgScenarioB).map Prod.fst ∧
      ∀ mn mc, (mn, mc) ∈ cfgMessages cfgScenarioB →
        (∀ p ∈ cfgGroups cfgScenarioB, tags_match (msgTags mc) (groupTags p.2)
          (Option.some (msgBlacklist mc)) = false) →
        dictGet? res mn = Option.some []) :=
  ⟨rfl, by decide,
   C9_batch_send_keys_exact Unit oracleT () cfgScenarioB rfl (by decide)⟩

/-- C4 counterexample: the claim as stated fails on two validated
configurations.  With a text item whose body is the empty string, the
collaborator's falsy-message guard returns `{}`, so matched recipient
`Alice` never appears in the result; with an empty content list,
nothing is ever sent to the matched group at all. -/
theorem C4_counterexample :
    (validate_config cfgEmptyText = .ok true ∧
     tags_match (msgTags mcEmptyText) (groupTags gcAlice)
       (Option.some (msgBlacklist mcEmptyText)) = true ∧
     "Alice" ∈ groupRecipients gcAlice ∧
     batch_send oracleT () (.parsed cfgEmptyText) =
       ((), [Call.text (.str "") ["Alice"]], .ok [("m", [])]) ∧
     dictGet? ([] : PyDict Bool) "Alice" = Option.none) ∧
    (validate_config cfgNoContent = .ok true ∧
     tags_match (msgTags mcNoContent) (groupTags gcAlice)
       (Option.some (msgBlacklist mcNoContent)) = true ∧
     batch_send oracleT () (.parsed cfgNoContent) = ((), [], .ok [("m", [])])) :=
  ⟨⟨rfl, rfl, List.mem_singleton.mpr rfl, rfl, rfl⟩, ⟨rfl, rfl, rfl⟩⟩

/-- C4 (amended): on a validated configuration with unique message
names, whenever the message's content list is non-empty and every text
item in it has a truthy body, every recipient of every tag-matched
group appears as a key of that message's result mapping. -/
theorem C4_batch_send_result_complete (σ : Type) (o : UIOracle σ) (s : σ)
    (cfg : PyVal) (mn : String) (mc : PyVal) (gn : String) (gc : PyVal) (r : String)
    (hv : validate_config cfg = .ok true)
    (hnd : ((cfgMessages cfg).map Prod.fst).Nodup)
    (hm : (mn, mc) ∈ cfgMessages cfg)
    (hg : (gn, gc) ∈ cfgGroups cfg)
    (hmatch : tags_match (msgTags mc) (groupTags gc)
      (Option.some (msgBlacklist mc)) = true)
    (hne : msgContent mc ≠ [])
    (hsend : ∀ it ∈ msgContent mc, itemSendable it = true)
    (hr : r ∈ groupRecipients gc) :
    ∃ s' c res mres, batch_send o s (.parsed cfg) = (s', c, .ok res) ∧
      dictGet? res mn = Option.some mres ∧ (dictGet? mres r).isSome = true := by
  obtain ⟨s', c, res, mres, hrun, hres, hsome⟩ :=
    msgLoop_covers hg hmatch hne hsend hr o (cfgMessages cfg)
      (validate_config_items hv) hnd hm s []
  refine ⟨s', c, res, mres, ?_, hres, hsome⟩
  simp only [batch_send]
  rw [hv]
  exact hrun

theorem C4_witness :
    validate_config cfgScenarioA = .ok true ∧
    tags_match (msgTags mcA) (groupTags gcTeam)
      (Option.some (msgBlacklist mcA)) = true ∧
    msgContent mcA ≠ [] ∧
    (∀ it ∈ msgContent mcA, itemSendable it = true) ∧
    (∃ s' c res mres,
      batch_send oracleT () (.parsed cfgScenarioA) = (s', c, .ok res) ∧
      dictGet? res "announce" = Option.some mres ∧
      (dictGet? mres "Alice").isSome = true) :=
  ⟨rfl, rfl, List.cons_ne_nil _ _,
   fun it hit => by
     rw [List.mem_singleton.mp hit]
     rfl,
   C4_batch_send_result_complete Unit oracleT () cfgScenarioA "announce" mcA
     "team" gcTeam "Alice" rfl (by decide)
     (List.mem_singleton.mpr rfl) (List.mem_singleton.mpr rfl) rfl
     (List.cons_ne_nil _ _)
     (fun it hit => by rw [List.mem_singleton.mp hit]; rfl)
     (List.mem_singleton.mpr rfl)⟩

/-- C5: last write wins.  First conjunct (groups): when a matching
group `g` containing recipient `r` is followed only by groups that do
not both match and contain `r`, the final result value for `(mn, r)`
is exactly the value that processing `g` alone produces at that point
of the run (`u`, its fresh per-group contribution) — later-enumerated
groups overwrite earlier ones.  Second conjunct (content items): within
one group's processing, the value recorded for `r` is the one from the
last item whose result contains `r` — later items overwrite earlier
ones. -/
theorem C5_last_write_wins :
    (∀ (σ : Type) (o : UIOracle σ) (s0 sX s1 s2 sF : σ)
      (cX c1 c2 cF : List Call) (cfg : PyVal)
      (msgsPre msgsPost : List (String × PyVal)) (mn : String) (mc : PyVal)
      (pre post : List (String × PyVal)) (gn : String) (gc : PyVal)
      (r : String) (v : Bool) (accM : PyDict (PyDict Bool))
      (accPre u : PyDict Bool) (res : PyDict (PyDict Bool)),
      validate_config cfg = .ok true →
      cfgMessages cfg = msgsPre ++ (mn, mc) :: msgsPost →
      cfgGroups cfg = pre ++ (gn, gc) :: post →
      msgLoop o s0 (cfgGroups cfg) msgsPre [] = (sX, cX, .ok accM) →
      groupLoop o sX (msgTags mc) (msgBlacklist mc) (msgContent mc) pre [] =
        (s1, c1, .ok accPre) →
      tags_match (msgTags mc) (groupTags gc)
        (Option.some (msgBlacklist mc)) = true →
      r ∈ groupRecipients gc →
      contentLoop o s1 (msgContent mc) (groupRecipients gc) [] = (s2, c2, .ok u) →
      dictGet? u r = Option.some v →
      (∀ p ∈ post, tags_match (msgTags mc) (groupTags p.2)
        (Option.some (msgBlacklist mc)) = true → r ∉ groupRecipients p.2) →
      mn ∉ msgsPost.map Prod.fst →
      batch_send o s0 (.parsed cfg) = (sF, cF, .ok res) →
      ∃ mres, dictGet? res mn = Option.some mres ∧
        dictGet? mres r = Option.some v) ∧
    (∀ (σ : Type) (o : UIOracle σ) (t0 t1 t2 t3 tF : σ)
      (c1 c2 c3 cF : List Call) (ipre ipost : List PyVal) (it : PyVal)
      (recips : List String) (acc acc1 d dfin : PyDict Bool)
      (wsPost : List (String × Bool)) (r : String) (w : Bool),
      contentLoop o t0 ipre recips acc = (t1, c1, .ok acc1) →
      send_message o t1 it recips = (t2, c2, .ok (Option.some d)) →
      dictGet? d r = Option.some w →
      contentWrites o t2 ipost recips = (t3, c3, .ok wsPost) →
      r ∉ wsPost.map Prod.fst →
      contentLoop o t0 (ipre ++ it :: ipost) recips acc = (tF, cF, .ok dfin) →
      dictGet? dfin r = Option.some w) := by
  constructor
  · intro σ o s0 sX s1 s2 sF cX c1 c2 cF cfg msgsPre msgsPost mn mc pre post gn gc
      r v accM accPre u res h0 h1 h2 h3 h4 h5 h6 h7 h8 h9 h10 h11
    simp only [batch_send] at h11
    rw [h0] at h11
    rw [h1, msgLoop_append o (cfgGroups cfg) msgsPre ((mn, mc) :: msgsPost) s0 [],
      h3] at h11
    simp only [] at h11
    rcases hT : msgLoop o sX (cfgGroups cfg) ((mn, mc) :: msgsPost) accM
      with ⟨sT, cT, rT⟩
    rw [hT] at h11
    cases rT with
    | error e => simp at h11
    | ok resT =>
      simp only [Prod.mk.injEq, Except.ok.injEq] at h11
      obtain ⟨-, -, hres⟩ := h11
      subst hres
      simp only [msgLoop] at hT
      rcases hGL : groupLoop o sX (msgTags mc) (msgBlacklist mc) (msgContent mc)
        (cfgGroups cfg) [] with ⟨sg, cg, rg⟩
      rw [hGL] at hT
      cases rg with
      | error e => simp at hT
      | ok mres =>
        simp only [] at hT
        rcases hRest : msgLoop o sg (cfgGroups cfg) msgsPost (dictSet accM mn mres)
          with ⟨sR, cR, rR⟩
        rw [hRest] at hT
        cases rR with
        | error e => simp at hT
        | ok resR =>
          simp only [Prod.mk.injEq, Except.ok.injEq] at hT
          obtain ⟨hsT, -, hresR⟩ := hT
          rw [h2] at hGL
          obtain ⟨wsPre, hwPre, -⟩ := groupLoop_to_writes h4
          obtain ⟨wsG, hwG, huw⟩ := contentLoop_to_writes h7
          obtain ⟨wsAll, hwAll, hmresw⟩ := groupLoop_to_writes hGL
          rw [groupWrites_append o (msgTags mc) (msgBlacklist mc) (msgContent mc)
            pre ((gn, gc) :: post) sX, hwPre] at hwAll
          simp only [] at hwAll
          simp only [groupWrites] at hwAll
          rw [if_pos h5, hwG] at hwAll
          simp only [] at hwAll
          rcases hwPost : groupWrites o s2 (msgTags mc) (msgBlacklist mc)
            (msgContent mc) post with ⟨s3, c3, r3⟩
          rw [hwPost] at hwAll
          cases r3 with
          | error e => simp at hwAll
          | ok wsPost =>
            simp only [Prod.mk.injEq, Except.ok.injEq] at hwAll
            obtain ⟨-, -, hws⟩ := hwAll
            subst hws
            have hlwPost : lastWrite wsPost r = Option.none := by
              refine lastWrite_eq_none wsPost r ?_
              intro kv hkv hk
              obtain ⟨g', hg', hmm, hrr⟩ := groupWrites_keys hwPost kv hkv
              exact h9 g' hg' hmm (hk ▸ hrr)
            have hlwG : lastWrite wsG r = Option.some v := by
              rw [huw, dictGet?_foldl_writes] at h8
              cases hlw : lastWrite wsG r with
              | none => rw [hlw] at h8; simp [dictGet?] at h8
              | some w =>
                rw [hlw] at h8
                simp only [] at h8
                rw [h8]
            have hval : dictGet? mres r = Option.some v := by
              rw [hmresw, dictGet?_foldl_writes, lastWrite_append, lastWrite_append,
                hlwPost, hlwG]
            have hpres := msgLoop_preserve o (cfgGroups cfg) msgsPost mn h10
              sg sR cR _ _ hRest
            refine ⟨mres, ?_, hval⟩
            rw [← hresR, hpres, dictGet?_dictSet, if_pos rfl]
  · intro σ o t0 t1 t2 t3 tF c1 c2 c3 cF ipre ipost it recips acc acc1 d dfin
      wsPost r w hA hB hC hD hE hF
    obtain ⟨wsPre, hwPre, -⟩ := contentLoop_to_writes hA
    have hstep : contentWrites o t1 (it :: ipost) recips =
        (t3, c2 ++ c3, .ok (d ++ wsPost)) := by
      simp only [contentWrites]
      rw [hB]
      simp only []
      rw [hD]
    have hall := contentWrites_append o recips ipre (it :: ipost) t0
    rw [hwPre] at hall
    simp only [] at hall
    rw [hstep] at hall
    obtain ⟨wsAll, hwAll, hdfin⟩ := contentLoop_to_writes hF
    rw [hall] at hwAll
    simp only [Prod.mk.injEq, Except.ok.injEq] at hwAll
    obtain ⟨-, -, hws⟩ := hwAll
    subst hws
    have hlwPost : lastWrite wsPost r = Option.none := by
      refine lastWrite_eq_none wsPost r ?_
      intro kv hkv hk
      exact hE (hk ▸ List.mem_map_of_mem Prod.fst hkv)
    have hlwD : lastWrite d r = Option.some w := by
      rw [lastWrite_eq_dictGet? d (send_message_nodup hB) r]
      exact hC
    rw [hdfin, dictGet?_foldl_writes, lastWrite_append, lastWrite_append,
      hlwPost, hlwD]

theorem C5_witness :
    tags_match (msgTags mcAB) (groupTags gcX1)
      (Option.some (msgBlacklist mcAB)) = true ∧
    tags_match (msgTags mcAB) (groupTags gcX2)
      (Option.some (msgBlacklist mcAB)) = true ∧
    "X" ∈ groupRecipients gcX1 ∧ "X" ∈ groupRecipients gcX2 ∧
    contentLoop oracleCtr 3 (msgContent mcAB) (groupRecipients gcX2) [] =
      (6, [Call.text (.str "hi") ["X"]], .ok [("X", true)]) ∧
    (∃ mres, dictGet? [("m", [("X", true)])] "m" = Option.some mres ∧
      dictGet? mres "X" = Option.some true) ∧
    dictGet? ([("X", true)] : PyDict Bool) "X" = Option.some true :=
  ⟨rfl, rfl, List.mem_singleton.mpr rfl, List.mem_singleton.mpr rfl, rfl,
   C5_last_write_wins.1 Nat oracleCtr 0 0 3 6 6 []
     [Call.text (.str "hi") ["X"]] [Call.text (.str "hi") ["X"]]
     [Call.text (.str "hi") ["X"], Call.text (.str "hi") ["X"]]
     cfgTwoGroups [] [] "m" mcAB [("g1", gcX1)] [] "g2" gcX2 "X" true
     [] [("X", false)] [("X", true)] [("m", [("X", true)])]
     rfl rfl rfl rfl rfl rfl (List.mem_singleton.mpr rfl) rfl rfl
     (fun p hp => absurd hp (List.not_mem_nil p)) (by simp) rfl,
   C5_last_write_wins.2 Unit oracleT () () () () ()
     [] [Call.text (.str "hi") ["X"]] [] [Call.text (.str "hi") ["X"]]
     [] [] itemHi ["X"] [] [] [("X", true)] [("X", true)] [] "X" true
     rfl rfl rfl rfl (by simp) rfl⟩

/-! ## C3: the validator against the spec's checklist -/

theorem any_key_eq (kvs : List (String × PyVal)) (k : String) :
    (kvs.any fun kv => kv.1 == k) = (lookupKV kvs k).isSome := by
  induction kvs with
  | nil => rfl
  | cons a rest ih =>
    obtain ⟨ak, av⟩ := a
    simp only [List.any_cons, lookupKV]
    by_cases h : ak = k
    · simp [h]
    · simp [beqF h, ih]

theorem pyIn_dict (k : String) (kvs : List (String × PyVal)) :
    pyIn k (.dict kvs) = .ok (lookupKV kvs k).isSome := by
  simp [pyIn, any_key_eq]

theorem pySub_dict_some {kvs : List (String × PyVal)} {k : String} {x : PyVal}
    (h : lookupKV kvs k = Option.some x) : pySub (.dict kvs) k = .ok x := by
  simp [pySub, h]

open BatchMessageSender in
/-- On mapping items the code's `validate_message` computes exactly the
spec's content-item check. -/
theorem validate_message_dict (kvs : List (String × PyVal)) :
    validate_message (.dict kvs) = .ok (specContentItemOk (.dict kvs)) := by
  unfold validate_message
  rw [pyIn_dict]
  cases hT : lookupKV kvs "type" with
  | none => simp [specContentItemOk, mapGet, hT]
  | some ty =>
    simp only [hT, Option.isSome_some, Bool.not_true, Bool.false_eq_true, if_false]
    rw [pySub_dict_some hT]
    by_cases ht : pyEqStr ty "text" = true
    · simp only [ht, Bool.true_or, Bool.not_true, Bool.false_eq_true, if_false,
        if_true]
      rw [pyIn_dict]
      cases hC : lookupKV kvs "content" with
      | none => simp [specContentItemOk, mapGet, hT, ht, hC]
      | some cv => simp [specContentItemOk, mapGet, hT, ht, hC]
    · by_cases hi : pyEqStr ty "image" = true
      · simp only [ht, hi, Bool.false_or, Bool.not_true, Bool.false_eq_true,
          if_false, Bool.false_eq_true]
        unfold vmImage
        rw [pyIn_dict]
        cases hS : lookupKV kvs "source" with
        | none => simp [specContentItemOk, mapGet, hT, ht, hi, hS]
        | some src =>
          simp only [hS, Option.isSome_some, Bool.not_true, Bool.false_eq_true,
            if_false]
          rw [pySub_dict_some hS]
          by_cases hf : pyEqStr src "file" = true
          · simp only [hf, Bool.not_true, Bool.false_eq_true, if_false]
            rw [pyIn_dict]
            cases hP : lookupKV kvs "path" with
            | none => simp [specContentItemOk, mapGet, hT, ht, hi, hS, hf, hP]
            | some pv => simp [specContentItemOk, mapGet, hT, ht, hi, hS, hf, hP]
          · simp only [Bool.not_eq_true] at hf
            simp [specContentItemOk, mapGet, hT, ht, hi, hS, hf]
      · simp only [Bool.not_eq_true] at ht hi
        simp [specContentItemOk, mapGet, hT, ht, hi]

open BatchMessageSender in
theorem validateContents_shaped {items : List PyVal}
    (h : ∀ it ∈ items, it.isDict = true) :
    validateContents items = .ok (items.all specContentItemOk) := by
  induction items with
  | nil => rfl
  | cons it rest ih =>
    have hd := h it (List.mem_cons_self _ _)
    cases it with
    | dict kvs =>
      simp only [validateContents, validate_message_dict]
      by_cases hv : specContentItemOk (.dict kvs) = true
      · simp only [hv, Bool.not_true, Bool.false_eq_true, if_false]
        rw [ih (fun x hx => h x (List.mem_cons_of_mem _ hx))]
        simp [hv]
      · simp only [Bool.not_eq_true] at hv
        simp [hv]
    | none => simp [PyVal.isDict] at hd
    | bool b => simp [PyVal.isDict] at hd
    | int n => simp [PyVal.isDict] at hd
    | str s => simp [PyVal.isDict] at hd
    | list l => simp [PyVal.isDict] at hd

open BatchMessageSender in
theorem validateGroups_shaped {gs : List (String × PyVal)}
    (h : ∀ g ∈ gs, g.2.isDict = true) :
    validateGroups gs = .ok (gs.all fun p => specGroupOk p.2) := by
  induction gs with
  | nil => rfl
  | cons g rest ih =>
    obtain ⟨gn, gc⟩ := g
    have hd := h (gn, gc) (List.mem_cons_self _ _)
    cases gc with
    | dict kvs =>
      simp only [validateGroups]
      rw [pyIn_dict]
      cases hT : lookupKV kvs "tags" with
      | none => simp [specGroupOk, mapGet, hT]
      | some tv =>
        simp only [hT, Option.isSome_some, Bool.not_true, Bool.false_eq_true,
          if_false]
        rw [pyIn_dict]
        cases hR : lookupKV kvs "recipients" with
        | none => simp [specGroupOk, mapGet, hT, hR]
        | some rv =>
          simp only [hR, Option.isSome_some, Bool.not_true, Bool.false_eq_true,
            if_false]
          rw [pySub_dict_some hT]
          by_cases htl : pyIsList tv = true
          · simp only [htl, Bool.not_true, Bool.false_eq_true, if_false]
            rw [pySub_dict_some hR]
            by_cases hrl : pyIsList rv = true
            · simp only [hrl, Bool.not_true, Bool.false_eq_true, if_false]
              rw [ih (fun x hx => h x (List.mem_cons_of_mem _ hx))]
              simp [specGroupOk, mapGet, hT, hR, htl, hrl]
            · simp only [Bool.not_eq_true] at hrl
              simp [specGroupOk, mapGet, hT, hR, htl, hrl]
          · simp only [Bool.not_eq_true] at htl
            simp [specGroupOk, mapGet, hT, htl]
    | none => simp [PyVal.isDict] at hd
    | bool b => simp [PyVal.isDict] at hd
    | int n => simp [PyVal.isDict] at hd
    | str s => simp [PyVal.isDict] at hd
    | list l => simp [PyVal.isDict] at hd

open BatchMessageSender in
theorem validateMessages_shaped {ms : List (String × PyVal)}
    (h : ∀ m ∈ ms, m.2.isDict = true ∧ contentShaped m.2 = true) :
    validateMessages ms = .ok (ms.all fun p => specMessageOk p.2) := by
  induction ms with
  | nil => rfl
  | cons m rest ih =>
    obtain ⟨mn, mc⟩ := m
    obtain ⟨hd, hcs⟩ := h (mn, mc) (List.mem_cons_self _ _)
    cases mc with
    | dict kvs =>
      simp only [validateMessages]
      rw [pyIn_dict]
      cases hT : lookupKV kvs "tags" with
      | none => simp [specMessageOk, mapGet, hT]
      | some tv =>
        simp only [hT, Option.isSome_some, Bool.not_true, Bool.false_eq_true,
          if_false]
        rw [pyIn_dict]
        cases hC : lookupKV kvs "content" with
        | none => simp [specMessageOk, mapGet, hT, hC]
        | some cv =>
          simp only [hC, Option.isSome_some, Bool.not_true, Bool.false_eq_true,
            if_false]
          rw [pySub_dict_some hT]
          by_cases htl : pyIsList tv = true
          · simp only [htl, Bool.not_true, Bool.false_eq_true, if_false]
            rw [pySub_dict_some hC]
            by_cases hcl : pyIsList cv = true
            · simp only [hcl, Bool.not_true, Bool.false_eq_true, if_false]
              rw [pyIn_dict]
              cases cv with
              | list items =>
                have hitems : ∀ it ∈ items, it.isDict = true := by
                  simp only [contentShaped, mapGet, hC, List.all_eq_true] at hcs
                  exact hcs
                cases hB : lookupKV kvs "blacklist_tags" with
                | none =>
                  simp only [hB, Option.isSome_none, Bool.false_eq_true, if_false]
                  rw [@validateContents_shaped (pyValList (.list items))
                    (by simpa [pyValList] using hitems)]
                  by_cases hall : (pyValList (.list items)).all specContentItemOk = true
                  · simp only [hall, Bool.not_true, Bool.false_eq_true, if_false]
                    rw [ih (fun x hx => h x (List.mem_cons_of_mem _ hx))]
                    simp [specMessageOk, mapGet, hT, hC, hB, htl, hcl, hall]
                  · simp only [Bool.not_eq_true] at hall
                    simp [specMessageOk, mapGet, hT, hC, hB, htl, hcl, hall]
                | some bv =>
                  simp only [hB, Option.isSome_some, if_true]
                  rw [pySub_dict_some hB]
                  by_cases hbl : pyIsList bv = true
                  · simp only [hbl, Bool.not_true, Bool.false_eq_true, if_false]
                    rw [@validateContents_shaped (pyValList (.list items))
                      (by simpa [pyValList] using hitems)]
                    by_cases hall : (pyValList (.list items)).all specContentItemOk = true
                    · simp only [hall, Bool.not_true, Bool.false_eq_true, if_false]
                      rw [ih (fun x hx => h x (List.mem_cons_of_mem _ hx))]
                      simp [specMessageOk, mapGet, hT, hC, hB, htl, hcl, hbl, hall]
                    · simp only [Bool.not_eq_true] at hall
                      simp [specMessageOk, mapGet, hT, hC, hB, htl, hcl, hbl, hall]
                  · simp only [Bool.not_eq_true] at hbl
                    simp [specMessageOk, mapGet, hT, hC, hB, htl, hcl, hbl]
              | none => simp [pyIsList] at hcl
              | bool b => simp [pyIsList] at hcl
              | int n => simp [pyIsList] at hcl
              | str s => simp [pyIsList] at hcl
              | dict d => simp [pyIsList] at hcl
            · simp only [Bool.not_eq_true] at hcl
              simp [specMessageOk, mapGet, hT, hC, htl, hcl]
          · simp only [Bool.not_eq_true] at htl
            simp [specMessageOk, mapGet, hT, htl]
    | none => simp [PyVal.isDict] at hd
    | bool b => simp [PyVal.isDict] at hd
    | int n => simp [PyVal.isDict] at hd
    | str s => simp [PyVal.isDict] at hd
    | list l => simp [PyVal.isDict] at hd

/-- C3 counterexample: `validate_config` does raise.  `None` (the
parse of an empty YAML file) raises `TypeError` at `'groups' in
config`; a non-mapping `groups` value raises `AttributeError` at
`.items()`; a non-mapping group entry raises `TypeError` at
`'tags' in group_config`; a `None` content item raises `TypeError`
inside `validate_message`. -/
theorem C3_counterexample :
    validate_config PyVal.none = .error .typeError ∧
    validate_config (.dict [("groups", .none), ("messages", .none)]) =
      .error .attributeError ∧
    validate_config (.dict [("groups", .dict [("g", .none)]),
      ("messages", .dict [])]) = .error .typeError ∧
    validate_config (.dict [("groups", .dict []),
      ("messages", .dict [("m", .dict [("tags", .list []),
        ("content", .list [PyVal.none])])])]) = .error .typeError :=
  ⟨rfl, rfl, rfl, rfl⟩

open BatchMessageSender in
/-- C3 (amended): on every well-shaped document — a mapping whose
`groups`/`messages` entries, when present, are mappings with mapping
values and whose content items are mappings — `validate_config`
returns a boolean without raising, and that boolean is exactly the
spec's §4.1 checklist: in particular it is false on every malformed
document (missing `groups`/`messages`, non-list `tags`/`recipients`/
`content`/`blacklist_tags`, missing or unknown content `type`, text
without `content`, image without `source = file` or without `path`). -/
theorem C3_validate_total_on_shaped (config : PyVal)
    (h : docShaped config = true) :
    validate_config config = .ok (specConfigOk config) := by
  cases config with
  | dict kvs =>
    simp only [docShaped, Bool.and_eq_true] at h
    obtain ⟨hg, hm⟩ := h
    unfold validate_config
    rw [pyIn_dict]
    cases hG : lookupKV kvs "groups" with
    | none => simp [specConfigOk, mapGet, hG]
    | some gv =>
      rw [hG] at hg
      cases gv with
      | dict gs =>
        simp only [hG, Option.isSome_some, Bool.not_true, Bool.false_eq_true,
          if_false]
        rw [pyIn_dict]
        cases hM : lookupKV kvs "messages" with
        | none => simp [specConfigOk, mapGet, hG, hM]
        | some mv =>
          rw [hM] at hm
          cases mv with
          | dict ms =>
            simp only [hM, Option.isSome_some, Bool.not_true, Bool.false_eq_true,
              if_false]
            rw [pySub_dict_some hG]
            simp only [pyItems]
            rw [validateGroups_shaped (by simpa [List.all_eq_true] using hg)]
            by_cases hAllG : (gs.all fun p => specGroupOk p.2) = true
            · simp only [hAllG, Bool.not_true, Bool.false_eq_true, if_false]
              rw [pySub_dict_some hM]
              simp only [pyItems]
              have hm' : ∀ m ∈ ms, m.2.isDict = true ∧ contentShaped m.2 = true := by
                simp only [List.all_eq_true, Bool.and_eq_true] at hm
                exact hm
              rw [validateMessages_shaped hm']
              by_cases hAllM : (ms.all fun p => specMessageOk p.2) = true
              · simp [specConfigOk, mapGet, hG, hM, hAllG, hAllM]
              · simp only [Bool.not_eq_true] at hAllM
                simp [specConfigOk, mapGet, hG, hM, hAllG, hAllM]
            · simp only [Bool.not_eq_true] at hAllG
              simp [specConfigOk, mapGet, hG, hM, hAllG]
          | none => simp at hm
          | bool b => simp at hm
          | int n => simp at hm
          | str s => simp at hm
          | list l => simp at hm
      | none => simp at hg
      | bool b => simp at hg
      | int n => simp at hg
      | str s => simp at hg
      | list l => simp at hg
  | none => simp [docShaped] at h
  | bool b => simp [docShaped] at h
  | int n => simp [docShaped] at h
  | str s => simp [docShaped] at h
  | list l => simp [docShaped] at h

theorem C3_witness :
    (docShaped cfgScenarioA = true ∧
     validate_config cfgScenarioA = .ok (specConfigOk cfgScenarioA) ∧
     specConfigOk cfgScenarioA = true) ∧
    (docShaped (.dict [("groups", .dict [])]) = true ∧
     validate_config (.dict [("groups", .dict [])]) =
       .ok (specConfigOk (.dict [("groups", .dict [])])) ∧
     specConfigOk (.dict [("groups", .dict [])]) = false) :=
  ⟨⟨rfl, C3_validate_total_on_shaped cfgScenarioA rfl, rfl⟩,
   ⟨rfl, C3_validate_total_on_shaped (.dict [("groups", .dict [])]) rfl, rfl⟩⟩
